import Mathlib

/-!
Verification development for the market-data-feed subsystem
(`src/app/services/data_feed` of the repository under review).

The Python source is shallowly embedded:

* `datetime` values become `DateTime`: an absolute epoch second count
  together with an optional fixed UTC offset in seconds (the `tzinfo`
  slot; `none` models a naive datetime, whose `epoch` field then stores
  its wall-clock seconds read as if it were UTC, which is exactly what
  `replace(tzinfo=timezone.utc)` turns it into).  The configured zone
  `America/Argentina/Buenos_Aires` has had the fixed offset UTC-3 with
  no daylight saving since 2009, so a fixed-offset model is faithful
  for every instant the claims touch.
* Python `float` prices, quantities and volumes become `ℚ`; the claims
  under study are about the aggregation algebra, not about rounding.
* in-place mutation of candle dataclasses becomes functional record
  update; a separate heap-indexed model (`AggHeapState`) captures
  object identity where a claim is about aliasing.
* raised exceptions become `Except PyError`; a `KeyError` from a dict
  lookup and a `ValueError` from validation are distinguished.
* `collections.deque(maxlen=n)` becomes a list on which appending past
  the capacity drops the oldest elements (`boundedAppend`).
-/

/-- Python exceptions that the embedded code can raise. -/
inductive PyError where
  | keyError : PyError
  | valueError : String → PyError
deriving DecidableEq, Repr

/-- A `datetime` value: absolute epoch seconds plus the `tzinfo` slot,
modelled as an optional fixed UTC offset in seconds (`none` = naive). -/
structure DateTime where
  epoch : Int
  tz : Option Int
deriving DecidableEq, Repr

/-- `dt.astimezone(tz)` on an aware datetime: same instant, new zone. -/
def DateTime.astimezone (d : DateTime) (tz : Int) : DateTime :=
  ⟨d.epoch, some tz⟩

/-- Python `==` on datetimes: aware values compare by instant, naive
values by wall clock, and an aware/naive mix is simply unequal. -/
def dtEq (a b : DateTime) : Bool :=
  match a.tz, b.tz with
  | some _, some _ => a.epoch == b.epoch
  | none, none => a.epoch == b.epoch
  | _, _ => false

/-- `ARGENTINA_TIMEZONE = ZoneInfo("America/Argentina/Buenos_Aires")`,
a fixed UTC-3 offset (in seconds) since 2009. -/
def ARGENTINA_TIMEZONE : Int := -10800

/-- The `Timeframe` enumeration from `types.py`. -/
inductive Timeframe where
  | MINUTE_1 | MINUTE_5 | MINUTE_15 | HOUR_1 | HOUR_4 | DAY_1
deriving DecidableEq, Repr

/-- `Timeframe.duration.total_seconds()` — the exact duration of each
timeframe in seconds. -/
def Timeframe.durationSecs : Timeframe → Int
  | .MINUTE_1 => 60
  | .MINUTE_5 => 300
  | .MINUTE_15 => 900
  | .HOUR_1 => 3600
  | .HOUR_4 => 14400
  | .DAY_1 => 86400

/-- `Timeframe.interval` — the exchange interval label. -/
def Timeframe.interval : Timeframe → String
  | .MINUTE_1 => "1m"
  | .MINUTE_5 => "5m"
  | .MINUTE_15 => "15m"
  | .HOUR_1 => "1h"
  | .HOUR_4 => "4h"
  | .DAY_1 => "1d"

/-- `Timeframe.default_sequence()`. -/
def Timeframe.defaultSequence : List Timeframe :=
  [.MINUTE_1, .MINUTE_5, .MINUTE_15, .HOUR_1, .HOUR_4, .DAY_1]

/-- `TradeTick` from `types.py`. -/
structure TradeTick where
  symbol : String
  price : ℚ
  quantity : ℚ
  timestamp : DateTime
deriving DecidableEq, Repr

/-- `OhlcvCandle` from `types.py`. -/
structure OhlcvCandle where
  symbol : String
  timeframe : Timeframe
  open_time : DateTime
  close_time : DateTime
  «open» : ℚ
  high : ℚ
  low : ℚ
  close : ℚ
  volume : ℚ
deriving DecidableEq, Repr

/-- `_floor_timestamp(dt, delta, tz)` from `aggregator.py`:
`astimezone` keeps the epoch, `int(localized.timestamp())` is that
epoch, the floor is taken on absolute epoch seconds
(`timestamp - timestamp % seconds`, Python `%` on a positive divisor
agreeing with `Int.emod`), and `fromtimestamp(floored, tz)` re-attaches
the configured zone. -/
def floorTimestamp (dt : DateTime) (secs : Int) (tz : Int) : DateTime :=
  ⟨dt.epoch - dt.epoch % secs, some tz⟩

/-- Appending to a `deque(maxlen=maxLen)`: the oldest entries are
dropped once the capacity is exceeded. -/
def boundedAppend (maxLen : Nat) (l : List α) (x : α) : List α :=
  let l' := l ++ [x]
  if maxLen < l'.length then l'.drop (l'.length - maxLen) else l'

/-- The last `n` elements of a list (the suffix a bounded deque keeps). -/
def takeLast (n : Nat) (l : List α) : List α :=
  l.drop (l.length - n)

/-- The brand-new candle built in the final lines of `_upsert_candle`. -/
def mkNewCandle (symbol : String) (tf : Timeframe) (frameStart frameEnd : DateTime)
    (tick : TradeTick) : OhlcvCandle :=
  { symbol := symbol
    timeframe := tf
    open_time := frameStart
    close_time := frameEnd
    «open» := tick.price
    high := tick.price
    low := tick.price
    close := tick.price
    volume := tick.quantity }

/-- `OhlcvAggregator._upsert_candle` acting on one timeframe's buffer
(oldest → newest).  `buffer[-1]` is `getLast?`; the in-place merge of
the newest candle becomes `dropLast ++ [merged]`; the append respects
the deque capacity. -/
def upsertCandle (symbol : String) (tz : Int) (maxLen : Nat) (tf : Timeframe)
    (buffer : List OhlcvCandle) (tick : TradeTick) : List OhlcvCandle :=
  let frameStart := floorTimestamp tick.timestamp tf.durationSecs tz
  let frameEnd : DateTime := ⟨frameStart.epoch + tf.durationSecs, frameStart.tz⟩
  match buffer.getLast? with
  | some last =>
    if dtEq last.open_time frameStart then
      buffer.dropLast ++
        [{ last with
            high := max last.high tick.price
            low := min last.low tick.price
            close := tick.price
            volume := last.volume + tick.quantity
            close_time := frameEnd }]
    else
      boundedAppend maxLen buffer (mkNewCandle symbol tf frameStart frameEnd tick)
  | none => boundedAppend maxLen buffer (mkNewCandle symbol tf frameStart frameEnd tick)

/-- `OhlcvAggregator._ensure_timezone`, behind the awareness check:
re-express both bucket timestamps in the aggregator timezone (a no-op
when they already carry it). -/
def ensureTz (tz : Int) (c : OhlcvCandle) : OhlcvCandle :=
  if c.open_time.tz = some tz ∧ c.close_time.tz = some tz then c
  else { c with open_time := c.open_time.astimezone tz
                close_time := c.close_time.astimezone tz }

/-- Stable insertion of a candle into a list sorted ascending by
`open_time`: the candle is placed before the first element that is not
strictly below it, so an element inserted from further left in the
original list lands before its equals, as Python `sorted` (a stable
sort) guarantees. -/
def insertByOpenTime (c : OhlcvCandle) : List OhlcvCandle → List OhlcvCandle
  | [] => [c]
  | d :: ds =>
    if d.open_time.epoch < c.open_time.epoch then d :: insertByOpenTime c ds
    else c :: d :: ds

/-- `sorted(candles, key=lambda c: c.open_time)` — stable sort by the
open-time instant. -/
def sortCandles : List OhlcvCandle → List OhlcvCandle
  | [] => []
  | c :: cs => insertByOpenTime c (sortCandles cs)

/-- The seeding loop of `OhlcvAggregator.seed` over the already sorted
candles: each candle is timezone-validated and normalized, then
appended.  The `Bool` is `false` when a naive candle raised
`ValueError` mid-loop, in which case the prefix processed so far is
what the buffer holds (the exception propagates with the buffer left
partially filled). -/
def seedScan (tz : Int) : List OhlcvCandle → List OhlcvCandle × Bool
  | [] => ([], true)
  | c :: cs =>
    if c.open_time.tz = none ∨ c.close_time.tz = none then ([], false)
    else
      let r := seedScan tz cs
      (ensureTz tz c :: r.1, r.2)

/-- The in-memory state of `OhlcvAggregator`: the constructor keeps the
upper-cased symbol, the timezone, the deque capacity and one buffer per
configured timeframe (a total function plus the configured key set,
modelling the Python dict). -/
structure OhlcvAggregator where
  symbol : String
  timezone : Int
  maxLen : Nat
  timeframes : List Timeframe
  buffers : Timeframe → List OhlcvCandle

/-- `str.upper()` restricted to ASCII, computably on the character
list (the symbols in play are ASCII tickers). -/
def pyUpper (s : String) : String :=
  ⟨s.data.map Char.toUpper⟩

/-- `OhlcvAggregator.__init__`. -/
def mkAggregator (symbol : String) (tfs : List Timeframe) (maxLen : Nat)
    (tz : Int) : OhlcvAggregator :=
  ⟨pyUpper symbol, tz, maxLen, tfs, fun _ => []⟩

/-- `OhlcvAggregator._localize_tick`: reject naive timestamps with
`ValueError`, otherwise convert to the aggregator timezone. -/
def OhlcvAggregator.localizeTick (a : OhlcvAggregator) (t : TradeTick) :
    Except PyError TradeTick :=
  match t.timestamp.tz with
  | none => .error (.valueError "Trade ticks must include timezone-aware timestamps")
  | some z =>
    if z = a.timezone then .ok t
    else .ok { t with timestamp := t.timestamp.astimezone a.timezone }

/-- `OhlcvAggregator.update`: localize the tick, then upsert it into
every configured timeframe's buffer. -/
def OhlcvAggregator.updateChecked (a : OhlcvAggregator) (t : TradeTick) :
    Except PyError OhlcvAggregator :=
  match a.localizeTick t with
  | .error e => .error e
  | .ok lt =>
    .ok { a with
          buffers := fun tf =>
            if tf ∈ a.timeframes then
              upsertCandle a.symbol a.timezone a.maxLen tf (a.buffers tf) lt
            else a.buffers tf }

/-- The aggregator state after `update` returns or raises: a raise
happens before any buffer is touched, so the state is unchanged. -/
def OhlcvAggregator.updateEffect (a : OhlcvAggregator) (t : TradeTick) :
    OhlcvAggregator :=
  match a.updateChecked t with
  | .ok a' => a'
  | .error _ => a

/-- The buffer contents `OhlcvAggregator.seed tf candles` leaves behind
for `tf`: the buffer is cleared, then the sorted candles are validated,
normalized and appended under the deque capacity. -/
def seededBuffer (tz : Int) (maxLen : Nat) (cs : List OhlcvCandle) :
    List OhlcvCandle :=
  takeLast maxLen (seedScan tz (sortCandles cs)).1

/-- The aggregator state after `OhlcvAggregator.seed` returns or
raises: an unknown timeframe raises `KeyError` before any mutation; a
naive candle raises `ValueError` mid-loop with the buffer left holding
the processed prefix. -/
def OhlcvAggregator.seedEffect (a : OhlcvAggregator) (tf : Timeframe)
    (cs : List OhlcvCandle) : OhlcvAggregator :=
  if tf ∈ a.timeframes then
    { a with buffers := fun tf' =>
        if tf' = tf then seededBuffer a.timezone a.maxLen cs else a.buffers tf' }
  else a

/-- `OhlcvAggregator.seed` as seen by the caller: `KeyError` for a
timeframe outside the constructor's set, `ValueError` for a naive
candle, otherwise the new state. -/
def OhlcvAggregator.seedChecked (a : OhlcvAggregator) (tf : Timeframe)
    (cs : List OhlcvCandle) : Except PyError OhlcvAggregator :=
  if tf ∈ a.timeframes then
    if (seedScan a.timezone (sortCandles cs)).2 then .ok (a.seedEffect tf cs)
    else .error (.valueError "OHLCV candles must be timezone aware")
  else .error .keyError

/-- `OhlcvAggregator.get_candles`: a dict lookup that raises `KeyError`
for a timeframe the constructor was not given, otherwise a copy of the
buffer oldest → newest. -/
def OhlcvAggregator.getCandles (a : OhlcvAggregator) (tf : Timeframe) :
    Except PyError (List OhlcvCandle) :=
  if tf ∈ a.timeframes then .ok (a.buffers tf) else .error .keyError

/-- One public mutating call on the aggregator. -/
inductive AggOp where
  | opSeed : Timeframe → List OhlcvCandle → AggOp
  | opUpdate : TradeTick → AggOp

/-- The aggregator state after one call, whether or not it raised. -/
def applyOp (a : OhlcvAggregator) : AggOp → OhlcvAggregator
  | .opSeed tf cs => a.seedEffect tf cs
  | .opUpdate t => a.updateEffect t

/-- The aggregator state after a whole call sequence. -/
def applyOps (a : OhlcvAggregator) (ops : List AggOp) : OhlcvAggregator :=
  ops.foldl applyOp a

example :
    (applyOps (mkAggregator "btcusdt" [Timeframe.MINUTE_1] 500 ARGENTINA_TIMEZONE)
      [AggOp.opUpdate ⟨"BTCUSDT", 100, 1, ⟨600, some 0⟩⟩,
       AggOp.opUpdate ⟨"BTCUSDT", 102, 2, ⟨630, some 0⟩⟩]).buffers Timeframe.MINUTE_1
    = [{ symbol := "BTCUSDT", timeframe := Timeframe.MINUTE_1,
         open_time := ⟨600, some ARGENTINA_TIMEZONE⟩,
         close_time := ⟨660, some ARGENTINA_TIMEZONE⟩,
         «open» := 100, high := 102, low := 100, close := 102, volume := 3 }] := by
  norm_num [applyOps, applyOp, OhlcvAggregator.updateEffect, OhlcvAggregator.updateChecked,
    OhlcvAggregator.localizeTick, mkAggregator, pyUpper, upsertCandle, floorTimestamp,
    boundedAppend, mkNewCandle, dtEq, DateTime.astimezone, ARGENTINA_TIMEZONE,
    Timeframe.durationSecs]
  decide

/-!  ## The State Manager (`market_data_manager.py`)  -/

/-- One serialized candle entry as stored in the persisted JSON file.
Each field is `none` when the corresponding key is missing from the
entry (the schema-invalid case `_deserialize_candle` turns into a
`ValueError` via the caught `KeyError`). -/
structure CandlePayload where
  symbol : Option String
  open_time : Option DateTime
  close_time : Option DateTime
  «open» : Option ℚ
  high : Option ℚ
  low : Option ℚ
  close : Option ℚ
  volume : Option ℚ
deriving DecidableEq, Repr

/-- What `Path.read_text` + `json.loads` can encounter at the persisted
path: no file, an `OSError` on read, a `JSONDecodeError`, or a parsed
payload (its `timeframes` mapping, keyed by interval label). -/
inductive FileState where
  | missing : FileState
  | osError : FileState
  | badJson : FileState
  | parsed : List (String × List CandlePayload) → FileState

/-- `OhlcvCandle.as_dict` as far as the persisted fields go: every key
is present and round-trips exactly (ISO-8601 keeps the instant and the
offset; JSON keeps the numbers). -/
def serializeCandle (c : OhlcvCandle) : CandlePayload :=
  ⟨some c.symbol, some c.open_time, some c.close_time,
   some c.«open», some c.high, some c.low, some c.close, some c.volume⟩

/-- `MarketDataManager._deserialize_candle`: a missing key raises
`KeyError`, re-raised as `ValueError`; a complete entry becomes a
candle tagged with the given timeframe. -/
def deserializeCandle (p : CandlePayload) (tf : Timeframe) :
    Except PyError OhlcvCandle :=
  match p.open_time, p.close_time, p.symbol, p.«open», p.high, p.low, p.close, p.volume with
  | some ot, some ct, some sym, some o, some h, some l, some c, some v =>
    .ok ⟨sym, tf, ot, ct, o, h, l, c, v⟩
  | _, _, _, _, _, _, _, _ =>
    .error (.valueError "Invalid candle payload")

/-- Deserialize every entry of a timeframe's list, propagating the
first raised error exactly as the list comprehension in
`_load_persisted_state` does. -/
def deserializeAll (entries : List CandlePayload) (tf : Timeframe) :
    Except PyError (List OhlcvCandle) :=
  match entries with
  | [] => .ok []
  | e :: es =>
    match deserializeCandle e tf with
    | .error err => .error err
    | .ok c =>
      match deserializeAll es tf with
      | .error err => .error err
      | .ok cs => .ok (c :: cs)

/-- `timeframe_payload.get(timeframe.interval, [])`. -/
def loadEntries (payload : List (String × List CandlePayload)) (tf : Timeframe) :
    List CandlePayload :=
  (payload.lookup tf.interval).getD []

/-- The seeding loop of `_load_persisted_state` over the configured
timeframes: empty entries are skipped, anything else is deserialized
(errors propagate out of the constructor) and seeded. -/
def loadState (tfs : List Timeframe) (agg : OhlcvAggregator)
    (payload : List (String × List CandlePayload)) :
    Except PyError OhlcvAggregator :=
  match tfs with
  | [] => .ok agg
  | tf :: rest =>
    let entries := loadEntries payload tf
    if entries = [] then loadState rest agg payload
    else
      match deserializeAll entries tf with
      | .error e => .error e
      | .ok candles =>
        match agg.seedChecked tf candles with
        | .error e => .error e
        | .ok agg' => loadState rest agg' payload

/-- The in-memory state of `MarketDataManager`: configuration, the
owned aggregator and the read cache (a dict keyed by the configured
timeframes). -/
structure MarketDataManager where
  symbol : String
  timeframes : List Timeframe
  historyLimit : Nat
  timezone : Int
  agg : OhlcvAggregator
  cache : Timeframe → List OhlcvCandle

/-- `MarketDataManager._sync_cache_locked`: refresh each configured
timeframe's cache entry from the aggregator, truncating to the last
`history_limit` candles when longer. -/
def syncCacheFun (tfs : List Timeframe) (hl : Nat) (agg : OhlcvAggregator)
    (old : Timeframe → List OhlcvCandle) : Timeframe → List OhlcvCandle :=
  fun tf =>
    if tf ∈ tfs then
      let cs := agg.buffers tf
      if hl < cs.length then takeLast hl cs else cs
    else old tf

/-- The manager state `__init__` builds before `_load_persisted_state`
runs. -/
def freshManager (symbol : String) (tfs : List Timeframe) (hl : Nat)
    (tz : Int) : MarketDataManager :=
  { symbol := pyUpper symbol
    timeframes := tfs
    historyLimit := hl
    timezone := tz
    agg := mkAggregator symbol tfs hl tz
    cache := fun _ => [] }

/-- `MarketDataManager.__init__` with a persistence path whose content
is `file`: construction succeeds with empty state for a missing file,
an unreadable file or undecodable JSON, reseeds from a parsed payload,
and propagates any exception the reseeding raises. -/
def mkManager (symbol : String) (tfs : List Timeframe) (hl : Nat) (tz : Int)
    (file : FileState) : Except PyError MarketDataManager :=
  let m := freshManager symbol tfs hl tz
  match file with
  | .missing => .ok m
  | .osError => .ok m
  | .badJson => .ok m
  | .parsed payload =>
    match loadState tfs m.agg payload with
    | .error e => .error e
    | .ok agg' =>
      .ok { m with agg := agg', cache := syncCacheFun tfs hl agg' m.cache }

/-- `MarketDataManager.seed`: seed the aggregator (exceptions
propagate), then resynchronize the cache.  Persistence is captured by
`snapshotPayload` below. -/
def seedManager (m : MarketDataManager) (tf : Timeframe)
    (cs : List OhlcvCandle) : Except PyError MarketDataManager :=
  match m.agg.seedChecked tf cs with
  | .error e => .error e
  | .ok agg' =>
    .ok { m with agg := agg',
                 cache := syncCacheFun m.timeframes m.historyLimit agg' m.cache }

/-- `MarketDataManager._localize_tick`. -/
def managerLocalizeTick (tz : Int) (t : TradeTick) : Except PyError TradeTick :=
  match t.timestamp.tz with
  | none => .error (.valueError "Trade tick must contain a timezone-aware timestamp")
  | some z =>
    if z = tz then .ok t
    else .ok ⟨t.symbol, t.price, t.quantity, t.timestamp.astimezone tz⟩

/-- `MarketDataManager.ingest_tick`: validate and localize the tick,
update the aggregator, resynchronize the cache. -/
def ingestTick (m : MarketDataManager) (t : TradeTick) :
    Except PyError MarketDataManager :=
  match managerLocalizeTick m.timezone t with
  | .error e => .error e
  | .ok lt =>
    match m.agg.updateChecked lt with
    | .error e => .error e
    | .ok agg' =>
      .ok { m with agg := agg',
                   cache := syncCacheFun m.timeframes m.historyLimit agg' m.cache }

/-- `MarketDataManager.get_latest`: `self._cache.get(timeframe, [])`
followed by `candles[-1] if candles else None`. -/
def getLatest (m : MarketDataManager) (tf : Timeframe) : Option OhlcvCandle :=
  (if tf ∈ m.timeframes then m.cache tf else []).getLast?

/-- `MarketDataManager.get_slice`. -/
def getSlice (m : MarketDataManager) (tf : Timeframe) (limit : Option Int) :
    List OhlcvCandle :=
  let cs := if tf ∈ m.timeframes then m.cache tf else []
  if cs = [] then []
  else
    match limit with
    | none => cs
    | some k =>
      if (cs.length : Int) ≤ k then cs
      else if k ≤ 0 then []
      else takeLast k.toNat cs

/-- `MarketDataManager.snapshot` restricted to the persisted
`timeframes` mapping: interval label to serialized cache entries. -/
def snapshotPayload (m : MarketDataManager) : List (String × List CandlePayload) :=
  m.timeframes.map fun tf => (tf.interval, (m.cache tf).map serializeCandle)

/-!  ## The provider reconnect loop (`providers.py`, `stream_trades`)

One pass through the `while True` body is driven by what the websocket
connection does: it can deliver some ticks and then close cleanly (the
`async for` ends, so the `backoff = 1.0` line runs), deliver some ticks
and then raise a connection error (the except-branch sleeps the current
backoff and doubles it, capped), or be cancelled (re-raised).  -/

/-- `BinanceDataProvider.MAX_BACKOFF_SECONDS`. -/
def MAX_BACKOFF_SECONDS : ℚ := 30

/-- One connection attempt's outcome, with the ticks the connection
delivered before ending. -/
inductive ConnOutcome where
  | cleanClose : List TradeTick → ConnOutcome
  | connError : List TradeTick → ConnOutcome
  | cancelled : List TradeTick → ConnOutcome

/-- The observable trace of the reconnect loop over a sequence of
connection outcomes: the backoff sleeps performed (in order), the ticks
yielded, whether the loop exited by re-raising cancellation, and the
backoff value carried into the next attempt. -/
structure StreamTrace where
  waits : List ℚ
  ticks : List TradeTick
  wasCancelled : Bool
  backoff : ℚ
deriving Repr

/-- `BinanceDataProvider.stream_trades`, folded over the connection
outcomes starting from backoff `b` (the loop starts with `b = 1`).
A clean close resets the backoff to `1.0`; a connection error sleeps
the current backoff, then doubles it capped at `MAX_BACKOFF_SECONDS`;
cancellation is re-raised, ending the loop with the remaining outcomes
never attempted. -/
def streamTradesRun (b : ℚ) : List ConnOutcome → StreamTrace
  | [] => ⟨[], [], false, b⟩
  | .cleanClose ts :: rest =>
    let r := streamTradesRun 1 rest
    ⟨r.waits, ts ++ r.ticks, r.wasCancelled, r.backoff⟩
  | .connError ts :: rest =>
    let r := streamTradesRun (min (b * 2) MAX_BACKOFF_SECONDS) rest
    ⟨b :: r.waits, ts ++ r.ticks, r.wasCancelled, r.backoff⟩
  | .cancelled ts :: _ => ⟨[], ts, true, b⟩

/-!  ## Object identity for `get_candles` (`aggregator.py`)

`get_candles` returns `list(buffer)` — a new list whose cells still
reference the very candle objects the buffer holds, and
`_upsert_candle` mutates the newest of those objects in place.  To
reason about what a caller of `get_candles` can observe afterwards, a
heap-indexed model tracks object identity: the heap lists every candle
object ever allocated (its index is its identity) and the buffer and
any returned snapshot hold indices.  -/

structure AggHeapState where
  heap : List OhlcvCandle
  buffer : List Nat

/-- The heap state with no candles allocated. -/
def emptyHeapState : AggHeapState := ⟨[], []⟩

/-- `_upsert_candle` in the heap model: merging mutates the newest
candle's object in place (`heap.set`); otherwise a fresh object is
allocated and its index appended under the deque capacity. -/
def upsertHeap (symbol : String) (tz : Int) (maxLen : Nat) (tf : Timeframe)
    (st : AggHeapState) (tick : TradeTick) : AggHeapState :=
  let frameStart := floorTimestamp tick.timestamp tf.durationSecs tz
  let frameEnd : DateTime := ⟨frameStart.epoch + tf.durationSecs, frameStart.tz⟩
  let appended : AggHeapState :=
    ⟨st.heap ++ [mkNewCandle symbol tf frameStart frameEnd tick],
     boundedAppend maxLen st.buffer st.heap.length⟩
  match st.buffer.getLast? with
  | some i =>
    match st.heap[i]? with
    | some last =>
      if dtEq last.open_time frameStart then
        ⟨st.heap.set i
          { last with
              high := max last.high tick.price
              low := min last.low tick.price
              close := tick.price
              volume := last.volume + tick.quantity
              close_time := frameEnd },
         st.buffer⟩
      else appended
    | none => appended
  | none => appended

/-- `get_candles` in the heap model: a fresh list holding the same
object references, i.e. the buffer's index sequence. -/
def getCandlesHeap (st : AggHeapState) : List Nat := st.buffer

/-- `seed` in the heap model: the buffer is repointed at freshly
normalized candle objects; no existing object's fields are written. -/
def seedHeap (tz : Int) (maxLen : Nat) (st : AggHeapState)
    (cs : List OhlcvCandle) : AggHeapState :=
  let fresh := (seedScan tz (sortCandles cs)).1
  ⟨st.heap ++ fresh,
   takeLast maxLen (List.range' st.heap.length fresh.length)⟩

/-!  ## Spec-side definitions

`wallClockFloor` renders the claim wording — flooring within the
configured timezone's wall clock — for comparison against the source's
`floorTimestamp`.  -/

/-- Modelled from the spec claim wording for C1: the timestamp floored
to the timeframe duration in the configured timezone's wall clock, so
that a bucket always starts at a local wall-clock multiple of the
duration (local midnight for the daily timeframe). -/
def wallClockFloor (dt : DateTime) (secs : Int) (tz : Int) : DateTime :=
  ⟨dt.epoch - (dt.epoch + tz) % secs, some tz⟩

/-- The local wall-clock second-of-day of an instant in a fixed-offset
zone. -/
def localSecondsOfDay (d : DateTime) (tz : Int) : Int :=
  (d.epoch + tz) % 86400

/-- `DataFeedService._handle_tick`, timestamp part: a naive timestamp
is re-tagged as UTC (`replace(tzinfo=timezone.utc)` keeps the wall
clock, which is exactly the naive `epoch` field), then every timestamp
is converted to the aggregator timezone. -/
def serviceHandleTick (aggTz : Int) (t : TradeTick) : TradeTick :=
  let ts := t.timestamp
  let ts' := if ts.tz = none then { ts with tz := some 0 } else ts
  { t with timestamp := ts'.astimezone aggTz }

/-- The candle-shape invariant of the spec: the high dominates open and
close, the low is dominated by them. -/
def goodC (c : OhlcvCandle) : Prop :=
  c.low ≤ c.«open» ∧ c.low ≤ c.close ∧ c.«open» ≤ c.high ∧ c.close ≤ c.high

/-- Every candle of every buffer satisfies `goodC`. -/
def goodState (a : OhlcvAggregator) : Prop :=
  ∀ tf : Timeframe, ∀ c ∈ a.buffers tf, goodC c

/-- An operation whose seeded candles all satisfy `goodC` (updates are
unrestricted). -/
def opGood : AggOp → Prop
  | .opSeed _ cs => ∀ c ∈ cs, goodC c
  | .opUpdate _ => True

/-- The buffer invariant of the spec for one timeframe: open times
strictly increase, every candle carries the configured timezone on both
bucket timestamps, and its span is exactly the timeframe duration. -/
def bufferInv (tz : Int) (secs : Int) (l : List OhlcvCandle) : Prop :=
  l.Pairwise (fun a b => a.open_time.epoch < b.open_time.epoch) ∧
  ∀ c ∈ l, c.open_time.tz = some tz ∧ c.close_time.tz = some tz ∧
    c.close_time.epoch - c.open_time.epoch = secs

/-- Whether a connection outcome is a cancellation. -/
def ConnOutcome.isCancelled : ConnOutcome → Bool
  | .cancelled _ => true
  | _ => false

/-!  ## Claim C1 — bucket boundary alignment  -/

/-- C1 counterexample: the claim says daily buckets start at local
midnight in the configured timezone.  For the tick instant
2024-01-01T00:00:00Z fed through `update` on a daily-timeframe
aggregator in the Argentina timezone (UTC-3), the bucket start the code
computes is the UTC midnight instant, whose local wall-clock time of
day is 21:00 (second 75600), not local midnight; it also differs from
the wall-clock floor the claim describes. -/
theorem C1_counterexample :
    (((mkAggregator "BTCUSDT" [Timeframe.DAY_1] 500 ARGENTINA_TIMEZONE).updateEffect
        ⟨"BTCUSDT", 100, 1, ⟨1704067200, some 0⟩⟩).buffers Timeframe.DAY_1).map
        (fun c => localSecondsOfDay c.open_time ARGENTINA_TIMEZONE) = [75600]
    ∧ (75600 : Int) ≠ 0
    ∧ floorTimestamp ⟨1704067200, some ARGENTINA_TIMEZONE⟩ Timeframe.DAY_1.durationSecs
        ARGENTINA_TIMEZONE
      ≠ wallClockFloor ⟨1704067200, some ARGENTINA_TIMEZONE⟩ Timeframe.DAY_1.durationSecs
        ARGENTINA_TIMEZONE := by
  refine ⟨?_, by decide, by decide⟩
  decide

/-- C1 amended: the bucket start `update` computes is the tick
timestamp floored to the timeframe duration in absolute epoch (UTC)
seconds, re-expressed in the configured timezone: it is divisible by
the duration in epoch time, lies at most one duration below the tick,
and carries the configured zone; its local wall-clock offset into the
duration always equals `tz % secs`, so boundaries align with the
configured timezone's wall clock exactly for durations dividing the
UTC offset (the minute and one-hour frames for UTC-3), while the 4h
and daily frames align to UTC boundaries instead. -/
theorem C1_amended (dt : DateTime) (secs tz : Int) (hs : 0 < secs) :
    (floorTimestamp dt secs tz).tz = some tz
    ∧ (floorTimestamp dt secs tz).epoch % secs = 0
    ∧ (floorTimestamp dt secs tz).epoch ≤ dt.epoch
    ∧ dt.epoch < (floorTimestamp dt secs tz).epoch + secs
    ∧ ((floorTimestamp dt secs tz).epoch + tz) % secs = tz % secs := by
  have hne : secs ≠ 0 := ne_of_gt hs
  have h0 : (dt.epoch - dt.epoch % secs) % secs = 0 := by
    rw [Int.sub_emod, Int.emod_emod_of_dvd _ dvd_rfl, sub_self, Int.zero_emod]
  have hnn : 0 ≤ dt.epoch % secs := Int.emod_nonneg dt.epoch hne
  have hlt : dt.epoch % secs < secs := Int.emod_lt_of_pos dt.epoch hs
  refine ⟨rfl, h0, ?_, ?_, ?_⟩
  · show dt.epoch - dt.epoch % secs ≤ dt.epoch
    omega
  · show dt.epoch < dt.epoch - dt.epoch % secs + secs
    omega
  · show (dt.epoch - dt.epoch % secs + tz) % secs = tz % secs
    rw [Int.add_emod, h0, zero_add, Int.emod_emod_of_dvd _ dvd_rfl]

/-- Witness for C1 amended at the concrete daily-frame input of the
counterexample. -/
theorem C1_amended_witness :
    (0 : Int) < 86400
    ∧ ((floorTimestamp ⟨1704067200, some 0⟩ 86400 ARGENTINA_TIMEZONE).tz
          = some ARGENTINA_TIMEZONE
        ∧ (floorTimestamp ⟨1704067200, some 0⟩ 86400 ARGENTINA_TIMEZONE).epoch % 86400 = 0
        ∧ (floorTimestamp ⟨1704067200, some 0⟩ 86400 ARGENTINA_TIMEZONE).epoch ≤ 1704067200
        ∧ (1704067200 : Int)
            < (floorTimestamp ⟨1704067200, some 0⟩ 86400 ARGENTINA_TIMEZONE).epoch + 86400
        ∧ ((floorTimestamp ⟨1704067200, some 0⟩ 86400 ARGENTINA_TIMEZONE).epoch
              + ARGENTINA_TIMEZONE) % 86400
            = ARGENTINA_TIMEZONE % 86400) :=
  ⟨by decide, C1_amended ⟨1704067200, some 0⟩ 86400 ARGENTINA_TIMEZONE (by decide)⟩

/-!  ## Claim C9 — naive-timestamp policy at the tick interfaces  -/

/-- C9: a tick whose timestamp lacks timezone information makes
`OhlcvAggregator.update` and `MarketDataManager.ingest_tick` raise a
`ValueError` synchronously, while the Feed Service's `_handle_tick`
accepts it, treating the naive timestamp as UTC before localizing to
the aggregator timezone (the resulting instant is the naive wall clock
read as UTC). -/
theorem C9_naive_policy (a : OhlcvAggregator) (m : MarketDataManager)
    (aggTz : Int) (t : TradeTick) (h : t.timestamp.tz = none) :
    a.updateChecked t
      = .error (.valueError "Trade ticks must include timezone-aware timestamps")
    ∧ ingestTick m t
      = .error (.valueError "Trade tick must contain a timezone-aware timestamp")
    ∧ (serviceHandleTick aggTz t).timestamp = ⟨t.timestamp.epoch, some aggTz⟩ := by
  refine ⟨?_, ?_, ?_⟩
  · simp [OhlcvAggregator.updateChecked, OhlcvAggregator.localizeTick, h]
  · simp [ingestTick, managerLocalizeTick, h]
  · simp [serviceHandleTick, h, DateTime.astimezone]

/-- Witness for C9 at a concrete naive tick. -/
theorem C9_naive_policy_witness :
    ((⟨"BTCUSDT", 100, 1, ⟨600, none⟩⟩ : TradeTick).timestamp.tz = none)
    ∧ ((mkAggregator "BTCUSDT" [Timeframe.MINUTE_1] 500 ARGENTINA_TIMEZONE).updateChecked
          ⟨"BTCUSDT", 100, 1, ⟨600, none⟩⟩
        = .error (.valueError "Trade ticks must include timezone-aware timestamps")
      ∧ ingestTick (freshManager "BTCUSDT" [Timeframe.MINUTE_1] 500 ARGENTINA_TIMEZONE)
          ⟨"BTCUSDT", 100, 1, ⟨600, none⟩⟩
        = .error (.valueError "Trade tick must contain a timezone-aware timestamp")
      ∧ (serviceHandleTick ARGENTINA_TIMEZONE
            ⟨"BTCUSDT", 100, 1, ⟨600, none⟩⟩).timestamp
        = ⟨600, some ARGENTINA_TIMEZONE⟩) :=
  ⟨rfl, C9_naive_policy (mkAggregator "BTCUSDT" [Timeframe.MINUTE_1] 500 ARGENTINA_TIMEZONE)
    (freshManager "BTCUSDT" [Timeframe.MINUTE_1] 500 ARGENTINA_TIMEZONE)
    ARGENTINA_TIMEZONE ⟨"BTCUSDT", 100, 1, ⟨600, none⟩⟩ rfl⟩

/-!  ## Claim C10 — unknown-timeframe behaviour  -/

/-- C10: for a timeframe outside the aggregator constructor's set,
`get_candles` and `seed` raise `KeyError` (dict lookup on the buffer
map), while the manager's `get_latest` and `get_slice` return `None`
and the empty list for a timeframe outside the manager's configured
set. -/
theorem C10_unknown_timeframe (a : OhlcvAggregator) (m : MarketDataManager)
    (tf : Timeframe) (cs : List OhlcvCandle) (limit : Option Int)
    (ha : tf ∉ a.timeframes) (hm : tf ∉ m.timeframes) :
    a.getCandles tf = .error .keyError
    ∧ a.seedChecked tf cs = .error .keyError
    ∧ getLatest m tf = none
    ∧ getSlice m tf limit = [] := by
  refine ⟨?_, ?_, ?_, ?_⟩
  · simp [OhlcvAggregator.getCandles, ha]
  · simp [OhlcvAggregator.seedChecked, ha]
  · simp [getLatest, hm]
  · simp [getSlice, hm]

/-- Witness for C10: a 1-minute-only aggregator and manager queried for
the daily timeframe. -/
theorem C10_unknown_timeframe_witness :
    (Timeframe.DAY_1 ∉ (mkAggregator "BTCUSDT" [Timeframe.MINUTE_1] 500
        ARGENTINA_TIMEZONE).timeframes)
    ∧ ((mkAggregator "BTCUSDT" [Timeframe.MINUTE_1] 500 ARGENTINA_TIMEZONE).getCandles
          Timeframe.DAY_1 = .error .keyError
      ∧ (mkAggregator "BTCUSDT" [Timeframe.MINUTE_1] 500 ARGENTINA_TIMEZONE).seedChecked
          Timeframe.DAY_1 [] = .error .keyError
      ∧ getLatest (freshManager "BTCUSDT" [Timeframe.MINUTE_1] 500 ARGENTINA_TIMEZONE)
          Timeframe.DAY_1 = none
      ∧ getSlice (freshManager "BTCUSDT" [Timeframe.MINUTE_1] 500 ARGENTINA_TIMEZONE)
          Timeframe.DAY_1 (some 10) = []) :=
  ⟨by decide,
   C10_unknown_timeframe (mkAggregator "BTCUSDT" [Timeframe.MINUTE_1] 500 ARGENTINA_TIMEZONE)
     (freshManager "BTCUSDT" [Timeframe.MINUTE_1] 500 ARGENTINA_TIMEZONE)
     Timeframe.DAY_1 [] (some 10) (by decide) (by decide)⟩

/-!  ## Claim C4 — constructor robustness against malformed persisted data

`_load_persisted_state` catches only `OSError` and `JSONDecodeError`.
The `ValueError` that `_deserialize_candle` raises for a schema-invalid
entry (valid JSON, missing candle keys) escapes the constructor.  -/

/-- C4: construction is indeed non-fatal for a missing file, an
unreadable file and undecodable JSON, but a persisted file that is
valid JSON whose candle entry misses required fields makes the
constructor raise `ValueError` instead of treating the data as empty
state. -/
theorem C4_schema_invalid_raises :
    mkManager "BTCUSDT" [Timeframe.MINUTE_1] 5 ARGENTINA_TIMEZONE FileState.missing
      = .ok (freshManager "BTCUSDT" [Timeframe.MINUTE_1] 5 ARGENTINA_TIMEZONE)
    ∧ mkManager "BTCUSDT" [Timeframe.MINUTE_1] 5 ARGENTINA_TIMEZONE FileState.osError
      = .ok (freshManager "BTCUSDT" [Timeframe.MINUTE_1] 5 ARGENTINA_TIMEZONE)
    ∧ mkManager "BTCUSDT" [Timeframe.MINUTE_1] 5 ARGENTINA_TIMEZONE FileState.badJson
      = .ok (freshManager "BTCUSDT" [Timeframe.MINUTE_1] 5 ARGENTINA_TIMEZONE)
    ∧ mkManager "BTCUSDT" [Timeframe.MINUTE_1] 5 ARGENTINA_TIMEZONE
        (FileState.parsed [("1m", [⟨none, none, none, none, none, none, none, none⟩])])
      = .error (.valueError "Invalid candle payload") :=
  ⟨rfl, rfl, rfl, rfl⟩

/-!  ## Claim C5 — snapshot semantics of `get_candles`

`get_candles` copies the list container but not the candle objects, and
`_upsert_candle` mutates the newest candle in place, so a caller does
observe that mutation through a previously returned list.  -/

/-- C5 counterexample: after one tick, `get_candles` returns a list
designating the single candle object (heap index 0) whose close is 1;
a second tick in the same bucket mutates that very object in place to
close 2, so the previously returned list now shows the new value —
refuting the copy-semantics claim. -/
theorem C5_counterexample :
    getCandlesHeap (upsertHeap "BTCUSDT" ARGENTINA_TIMEZONE 500 Timeframe.MINUTE_1
        emptyHeapState ⟨"BTCUSDT", 1, 1, ⟨0, some ARGENTINA_TIMEZONE⟩⟩) = [0]
    ∧ ((upsertHeap "BTCUSDT" ARGENTINA_TIMEZONE 500 Timeframe.MINUTE_1
          emptyHeapState ⟨"BTCUSDT", 1, 1, ⟨0, some ARGENTINA_TIMEZONE⟩⟩).heap[0]?).map
        OhlcvCandle.close = some 1
    ∧ ((upsertHeap "BTCUSDT" ARGENTINA_TIMEZONE 500 Timeframe.MINUTE_1
          (upsertHeap "BTCUSDT" ARGENTINA_TIMEZONE 500 Timeframe.MINUTE_1
            emptyHeapState ⟨"BTCUSDT", 1, 1, ⟨0, some ARGENTINA_TIMEZONE⟩⟩)
          ⟨"BTCUSDT", 2, 1, ⟨30, some ARGENTINA_TIMEZONE⟩⟩).heap[0]?).map
        OhlcvCandle.close = some 2
    ∧ (1 : ℚ) ≠ 2 :=
  ⟨rfl, rfl, rfl, by decide⟩

/-- C5 amended: `get_candles` returns a fresh list, so subsequent
operations never change which candle objects a previously returned
list designates; a subsequent `update` can mutate only the buffer's
newest candle object (when merging into the open bucket), leaving
every other candle object unchanged, and `seed` never mutates any
existing candle object — but mutation of the newest, still-open candle
is observable through the returned list. -/
theorem C5_amended (symbol : String) (tz : Int) (maxLen : Nat) (tf : Timeframe)
    (st : AggHeapState) (tick : TradeTick) (cs : List OhlcvCandle) (i : Nat)
    (hi : i < st.heap.length) (hlast : st.buffer.getLast? ≠ some i) :
    (upsertHeap symbol tz maxLen tf st tick).heap[i]? = st.heap[i]?
    ∧ (seedHeap tz maxLen st cs).heap[i]? = st.heap[i]? := by
  constructor
  · dsimp only [upsertHeap]
    split
    · next j hb =>
      split
      · next last hh =>
        split_ifs with hd
        · have hij : j ≠ i := fun e => hlast (by rw [← e]; exact hb)
          exact List.getElem?_set_ne hij
        · exact List.getElem?_append_left hi
      · next hh => exact List.getElem?_append_left hi
    · next hb => exact List.getElem?_append_left hi
  · dsimp only [seedHeap]
    exact List.getElem?_append_left hi

/-- Witness for C5 amended: in a two-candle heap state, an update and a
seed leave the older candle object (index 0, not the buffer's newest)
untouched. -/
theorem C5_amended_witness :
    (0 < (upsertHeap "BTCUSDT" ARGENTINA_TIMEZONE 500 Timeframe.MINUTE_1
        (upsertHeap "BTCUSDT" ARGENTINA_TIMEZONE 500 Timeframe.MINUTE_1
          emptyHeapState ⟨"BTCUSDT", 1, 1, ⟨0, some ARGENTINA_TIMEZONE⟩⟩)
        ⟨"BTCUSDT", 2, 1, ⟨60, some ARGENTINA_TIMEZONE⟩⟩).heap.length)
    ∧ ((upsertHeap "BTCUSDT" ARGENTINA_TIMEZONE 500 Timeframe.MINUTE_1
        (upsertHeap "BTCUSDT" ARGENTINA_TIMEZONE 500 Timeframe.MINUTE_1
          (upsertHeap "BTCUSDT" ARGENTINA_TIMEZONE 500 Timeframe.MINUTE_1
            emptyHeapState ⟨"BTCUSDT", 1, 1, ⟨0, some ARGENTINA_TIMEZONE⟩⟩)
          ⟨"BTCUSDT", 2, 1, ⟨60, some ARGENTINA_TIMEZONE⟩⟩)
        ⟨"BTCUSDT", 3, 1, ⟨90, some ARGENTINA_TIMEZONE⟩⟩).heap[0]?
      = (upsertHeap "BTCUSDT" ARGENTINA_TIMEZONE 500 Timeframe.MINUTE_1
          (upsertHeap "BTCUSDT" ARGENTINA_TIMEZONE 500 Timeframe.MINUTE_1
            emptyHeapState ⟨"BTCUSDT", 1, 1, ⟨0, some ARGENTINA_TIMEZONE⟩⟩)
          ⟨"BTCUSDT", 2, 1, ⟨60, some ARGENTINA_TIMEZONE⟩⟩).heap[0]?
    ∧ (seedHeap ARGENTINA_TIMEZONE 500
        (upsertHeap "BTCUSDT" ARGENTINA_TIMEZONE 500 Timeframe.MINUTE_1
          (upsertHeap "BTCUSDT" ARGENTINA_TIMEZONE 500 Timeframe.MINUTE_1
            emptyHeapState ⟨"BTCUSDT", 1, 1, ⟨0, some ARGENTINA_TIMEZONE⟩⟩)
          ⟨"BTCUSDT", 2, 1, ⟨60, some ARGENTINA_TIMEZONE⟩⟩) []).heap[0]?
      = (upsertHeap "BTCUSDT" ARGENTINA_TIMEZONE 500 Timeframe.MINUTE_1
          (upsertHeap "BTCUSDT" ARGENTINA_TIMEZONE 500 Timeframe.MINUTE_1
            emptyHeapState ⟨"BTCUSDT", 1, 1, ⟨0, some ARGENTINA_TIMEZONE⟩⟩)
          ⟨"BTCUSDT", 2, 1, ⟨60, some ARGENTINA_TIMEZONE⟩⟩).heap[0]?) :=
  ⟨by decide,
   C5_amended "BTCUSDT" ARGENTINA_TIMEZONE 500 Timeframe.MINUTE_1
     (upsertHeap "BTCUSDT" ARGENTINA_TIMEZONE 500 Timeframe.MINUTE_1
       (upsertHeap "BTCUSDT" ARGENTINA_TIMEZONE 500 Timeframe.MINUTE_1
         emptyHeapState ⟨"BTCUSDT", 1, 1, ⟨0, some ARGENTINA_TIMEZONE⟩⟩)
       ⟨"BTCUSDT", 2, 1, ⟨60, some ARGENTINA_TIMEZONE⟩⟩)
     ⟨"BTCUSDT", 3, 1, ⟨90, some ARGENTINA_TIMEZONE⟩⟩ [] 0 (by decide) (by decide)⟩

/-!  ## Claim C8 — the OHLC shape invariant

Helper lemmas: the shape predicate `goodC` survives normalization,
sorting, the seeding loop and the upsert, so it is an invariant of
every run whose seeded candles satisfy it — but `seed` never validates
it, so a malformed seeded candle lands in the buffer untouched.  -/

theorem goodC_ensureTz {tz : Int} {c : OhlcvCandle} (h : goodC c) :
    goodC (ensureTz tz c) := by
  unfold ensureTz
  split_ifs <;> exact h

theorem mem_insertByOpenTime {c x : OhlcvCandle} {l : List OhlcvCandle}
    (h : x ∈ insertByOpenTime c l) : x = c ∨ x ∈ l := by
  induction l with
  | nil =>
    rw [insertByOpenTime] at h
    exact Or.inl (List.mem_singleton.1 h)
  | cons d ds ih =>
    rw [insertByOpenTime] at h
    by_cases hle : d.open_time.epoch < c.open_time.epoch
    · rw [if_pos hle] at h
      rcases List.mem_cons.1 h with h' | h'
      · exact Or.inr (List.mem_cons.2 (Or.inl h'))
      · rcases ih h' with h'' | h''
        · exact Or.inl h''
        · exact Or.inr (List.mem_cons.2 (Or.inr h''))
    · rw [if_neg hle] at h
      rcases List.mem_cons.1 h with h' | h'
      · exact Or.inl h'
      · exact Or.inr h'

theorem mem_sortCandles {x : OhlcvCandle} {l : List OhlcvCandle}
    (h : x ∈ sortCandles l) : x ∈ l := by
  induction l with
  | nil => simp [sortCandles] at h
  | cons c cs ih =>
    unfold sortCandles at h
    rcases mem_insertByOpenTime h with h' | h'
    · simp [h']
    · simp [ih h']

theorem mem_seedScan {tz : Int} {l : List OhlcvCandle} {c : OhlcvCandle}
    (h : c ∈ (seedScan tz l).1) : ∃ d ∈ l, c = ensureTz tz d := by
  induction l with
  | nil =>
    rw [seedScan] at h
    simp at h
  | cons d ds ih =>
    rw [seedScan] at h
    by_cases hn : d.open_time.tz = none ∨ d.close_time.tz = none
    · rw [if_pos hn] at h
      simp at h
    · rw [if_neg hn] at h
      rcases List.mem_cons.1 h with h' | h'
      · exact ⟨d, by simp, h'⟩
      · rcases ih h' with ⟨d', hd', he⟩
        exact ⟨d', by simp [hd'], he⟩

theorem mem_boundedAppend {l : List α} {x c : α} {n : Nat}
    (h : c ∈ boundedAppend n l x) : c ∈ l ∨ c = x := by
  simp only [boundedAppend] at h
  split_ifs at h with hlt
  · have := List.drop_subset _ _ h
    simpa using this
  · simpa using h

theorem goodC_seededBuffer {tz : Int} {maxLen : Nat} {cs : List OhlcvCandle}
    (h : ∀ d ∈ cs, goodC d) : ∀ c ∈ seededBuffer tz maxLen cs, goodC c := by
  intro c hc
  have hc' : c ∈ (seedScan tz (sortCandles cs)).1 :=
    List.drop_subset _ _ hc
  rcases mem_seedScan hc' with ⟨d, hd, he⟩
  exact he ▸ goodC_ensureTz (h d (mem_sortCandles hd))

theorem goodC_upsert {symbol : String} {tz : Int} {maxLen : Nat} {tf : Timeframe}
    {buf : List OhlcvCandle} {t : TradeTick} (h : ∀ c ∈ buf, goodC c) :
    ∀ c ∈ upsertCandle symbol tz maxLen tf buf t, goodC c := by
  intro c hc
  dsimp only [upsertCandle] at hc
  split at hc
  · next last hb =>
    split_ifs at hc with hd
    · rcases List.mem_append.1 hc with h' | h'
      · exact h c (List.dropLast_subset _ h')
      · have hlast : goodC last := h last (List.mem_of_getLast?_eq_some hb)
        have hc' := List.mem_singleton.1 h'
        subst hc'
        obtain ⟨h1, h2, h3, h4⟩ := hlast
        refine ⟨le_trans (min_le_left _ _) h1, min_le_right _ _,
                le_trans h3 (le_max_left _ _), le_max_right _ _⟩
    · rcases mem_boundedAppend hc with h' | h'
      · exact h c h'
      · subst h'
        exact ⟨le_refl _, le_refl _, le_refl _, le_refl _⟩
  · next hb =>
    rcases mem_boundedAppend hc with h' | h'
    · exact h c h'
    · subst h'
      exact ⟨le_refl _, le_refl _, le_refl _, le_refl _⟩

theorem goodState_applyOp {a : OhlcvAggregator} {op : AggOp}
    (ha : goodState a) (hop : opGood op) : goodState (applyOp a op) := by
  cases op with
  | opSeed tf cs =>
    dsimp only [applyOp, OhlcvAggregator.seedEffect]
    split_ifs with hmem
    · intro tf' c hc
      dsimp only at hc
      split_ifs at hc with heq
      · exact goodC_seededBuffer hop c hc
      · exact ha tf' c hc
    · exact ha
  | opUpdate t =>
    dsimp only [applyOp, OhlcvAggregator.updateEffect, OhlcvAggregator.updateChecked,
      OhlcvAggregator.localizeTick]
    cases ht : t.timestamp.tz with
    | none => exact ha
    | some z =>
      dsimp only
      split_ifs with hz
      · intro tf c hc
        dsimp only at hc
        split_ifs at hc with hmem
        · exact goodC_upsert (ha tf) c hc
        · exact ha tf c hc
      · intro tf c hc
        dsimp only at hc
        split_ifs at hc with hmem
        · exact goodC_upsert (ha tf) c hc
        · exact ha tf c hc

/-- C8 amended: every aggregator state reached by seed and update
operations whose *seeded* candles all satisfy the OHLC shape bounds has
every buffered candle satisfying high ≥ max(open, close) and
low ≤ min(open, close); updates are unrestricted — they create and
merge candles that keep the bounds — but `seed` performs no shape
validation, so the bounds hold only as long as seed inputs satisfy
them. -/
theorem C8_amended (sym : String) (tfs : List Timeframe) (maxLen : Nat) (tz : Int)
    (ops : List AggOp) (h : ∀ op ∈ ops, opGood op) :
    goodState (applyOps (mkAggregator sym tfs maxLen tz) ops) := by
  have base : goodState (mkAggregator sym tfs maxLen tz) := by
    intro tf c hc
    simp [mkAggregator] at hc
  suffices H : ∀ (ops' : List AggOp) (a : OhlcvAggregator),
      goodState a → (∀ op ∈ ops', opGood op) → goodState (applyOps a ops') by
    exact H ops _ base h
  intro ops'
  induction ops' with
  | nil => intro a ha _; exact ha
  | cons op rest ih =>
    intro a ha hops
    exact ih _ (goodState_applyOp ha (hops op (by simp)))
      (fun o ho => hops o (by simp [ho]))

/-- Witness for C8 amended: a single update on a fresh aggregator. -/
theorem C8_amended_witness :
    goodState (applyOps (mkAggregator "BTCUSDT" [Timeframe.MINUTE_1] 500 ARGENTINA_TIMEZONE)
      [AggOp.opUpdate ⟨"BTCUSDT", 100, 1, ⟨600, some 0⟩⟩]) :=
  C8_amended "BTCUSDT" [Timeframe.MINUTE_1] 500 ARGENTINA_TIMEZONE
    [AggOp.opUpdate ⟨"BTCUSDT", 100, 1, ⟨600, some 0⟩⟩]
    (fun op hop => by
      have h' : op = AggOp.opUpdate ⟨"BTCUSDT", 100, 1, ⟨600, some 0⟩⟩ := by
        simpa using hop
      subst h'
      trivial)

/-- C8 counterexample: the claim quantifies over *arbitrary* inputs,
but `seed` accepts a candle whose high (0) is below its open (5)
unchanged, so the reached state violates the bounds. -/
theorem C8_counterexample :
    (applyOps (mkAggregator "BTCUSDT" [Timeframe.MINUTE_1] 500 ARGENTINA_TIMEZONE)
        [AggOp.opSeed Timeframe.MINUTE_1
          [⟨"BTCUSDT", Timeframe.MINUTE_1, ⟨0, some ARGENTINA_TIMEZONE⟩,
            ⟨60, some ARGENTINA_TIMEZONE⟩, 5, 0, 0, 0, 0⟩]]).buffers Timeframe.MINUTE_1
      = [⟨"BTCUSDT", Timeframe.MINUTE_1, ⟨0, some ARGENTINA_TIMEZONE⟩,
          ⟨60, some ARGENTINA_TIMEZONE⟩, 5, 0, 0, 0, 0⟩]
    ∧ ¬ goodC ⟨"BTCUSDT", Timeframe.MINUTE_1, ⟨0, some ARGENTINA_TIMEZONE⟩,
          ⟨60, some ARGENTINA_TIMEZONE⟩, 5, 0, 0, 0, 0⟩ := by
  constructor
  · rfl
  · intro h
    exact absurd h.2.2.1 (by decide)

/-!  ## Claim C6 — reconnect backoff behaviour

The `backoff = 1.0` reset sits *after* the `async for` over the
connection, so it only runs when the message iteration ends cleanly; a
connection that delivers ticks and then raises keeps the doubled
backoff.  -/

theorem backoff_double_step (j : ℕ) :
    min (min ((2:ℚ)^j) 30 * 2) MAX_BACKOFF_SECONDS = min ((2:ℚ)^(j+1)) 30 := by
  rw [show MAX_BACKOFF_SECONDS = (30:ℚ) from rfl,
    min_mul_of_nonneg _ _ (by norm_num : (0:ℚ) ≤ 2), min_assoc, pow_succ]
  norm_num

theorem streamRun_err_waits (ts : List TradeTick) :
    ∀ (k j : ℕ), (streamTradesRun (min ((2:ℚ)^j) 30)
        (List.replicate k (ConnOutcome.connError ts))).waits
      = (List.range k).map (fun i => min ((2:ℚ)^(j+i)) 30) := by
  intro k
  induction k with
  | zero => intro j; rfl
  | succ k ih =>
    intro j
    rw [List.replicate_succ, streamTradesRun]
    dsimp only
    rw [backoff_double_step, ih (j+1), List.range_succ_eq_map]
    have harith : ∀ i : ℕ, j + 1 + i = j + (i + 1) := by omega
    simp [List.map_map, Function.comp, harith]

theorem streamRun_no_cancel (os : List ConnOutcome) :
    ∀ b : ℚ, (∀ o ∈ os, o.isCancelled = false) →
      (streamTradesRun b os).wasCancelled = false := by
  induction os with
  | nil => intro b _; rfl
  | cons o rest ih =>
    intro b h
    cases o with
    | cleanClose ts =>
      rw [streamTradesRun]
      exact ih 1 (fun o ho => h o (List.mem_cons.2 (Or.inr ho)))
    | connError ts =>
      rw [streamTradesRun]
      exact ih _ (fun o ho => h o (List.mem_cons.2 (Or.inr ho)))
    | cancelled ts =>
      have := h (ConnOutcome.cancelled ts) (List.mem_cons.2 (Or.inl rfl))
      simp [ConnOutcome.isCancelled] at this

theorem streamRun_wait_bounds (os : List ConnOutcome) :
    ∀ b : ℚ, 1 ≤ b → b ≤ 30 →
      ∀ w ∈ (streamTradesRun b os).waits, 1 ≤ w ∧ w ≤ 30 := by
  induction os with
  | nil =>
    intro b _ _ w hw
    rw [streamTradesRun] at hw
    simp at hw
  | cons o rest ih =>
    intro b h1 h30 w hw
    cases o with
    | cleanClose ts =>
      rw [streamTradesRun] at hw
      exact ih 1 le_rfl (by norm_num) w hw
    | connError ts =>
      rw [streamTradesRun] at hw
      dsimp only at hw
      rcases List.mem_cons.1 hw with h | h
      · subst h; exact ⟨h1, h30⟩
      · refine ih (min (b * 2) MAX_BACKOFF_SECONDS) ?_ ?_ w h
        · exact le_min (by linarith) (by norm_num [MAX_BACKOFF_SECONDS])
        · exact min_le_right _ _
    | cancelled ts =>
      rw [streamTradesRun] at hw
      simp at hw

/-- C6 amended: in the reconnect loop the wait before the i-th
consecutive reconnect after an uninterrupted error streak from the
start is min(2^i, 30) — starting at 1, doubling, capped at 30 — and the
backoff is reset to the initial value only by a connection whose
message iteration completes *without* error (the loop then continues
from backoff 1); a connection that delivers ticks and then errors does
*not* reset it.  Cancellation is re-raised immediately (the remaining
outcomes are never attempted), the loop never reports cancellation on
its own when no outcome is a cancellation, and every wait performed
from the initial backoff lies in [1, 30]. -/
theorem C6_amended :
    (∀ (ts : List TradeTick) (k : ℕ),
        (streamTradesRun 1 (List.replicate k (ConnOutcome.connError ts))).waits
          = (List.range k).map (fun i => min ((2:ℚ)^i) 30))
    ∧ (∀ (b : ℚ) (ts : List TradeTick) (rest : List ConnOutcome),
        streamTradesRun b (ConnOutcome.cleanClose ts :: rest)
          = ⟨(streamTradesRun 1 rest).waits, ts ++ (streamTradesRun 1 rest).ticks,
             (streamTradesRun 1 rest).wasCancelled, (streamTradesRun 1 rest).backoff⟩)
    ∧ (∀ (b : ℚ) (ts : List TradeTick) (rest : List ConnOutcome),
        streamTradesRun b (ConnOutcome.cancelled ts :: rest) = ⟨[], ts, true, b⟩)
    ∧ (∀ (b : ℚ) (os : List ConnOutcome), (∀ o ∈ os, o.isCancelled = false) →
        (streamTradesRun b os).wasCancelled = false)
    ∧ (∀ (os : List ConnOutcome), ∀ w ∈ (streamTradesRun 1 os).waits,
        1 ≤ w ∧ w ≤ 30) := by
  refine ⟨?_, ?_, ?_, ?_, ?_⟩
  · intro ts k
    have h1 : (1:ℚ) = min ((2:ℚ)^0) 30 := by norm_num
    rw [h1, streamRun_err_waits ts k 0]
    simp
  · intro b ts rest; rfl
  · intro b ts rest; rfl
  · intro b os h; exact streamRun_no_cancel os b h
  · intro os w hw
    exact streamRun_wait_bounds os 1 le_rfl (by norm_num) w hw

/-- Witness for C6 amended at two consecutive connection errors and a
cancellation-free run. -/
theorem C6_amended_witness :
    (streamTradesRun 1 (List.replicate 2 (ConnOutcome.connError []))).waits
      = (List.range 2).map (fun i => min ((2:ℚ)^i) 30)
    ∧ (streamTradesRun 1 [ConnOutcome.connError []]).wasCancelled = false :=
  ⟨C6_amended.1 [] 2,
   C6_amended.2.2.2.1 1 [ConnOutcome.connError []] (fun o ho => by
     rw [List.mem_singleton] at ho
     subst ho
     rfl)⟩

/-- C6 counterexample: a first connection that errors at once, a second
connection that delivers a tick and then errors, then a third error.
The claim predicts the wait after the tick-delivering connection to be
reset to 1; the code sleeps the doubled value 4 there (waits are
1, 2, 4). -/
theorem C6_counterexample :
    (streamTradesRun 1
        [ConnOutcome.connError [], 
         ConnOutcome.connError [⟨"BTCUSDT", 100, 1, ⟨0, some 0⟩⟩],
         ConnOutcome.connError []]).waits = [1, 2, 4]
    ∧ ((4:ℚ) = 1 → False) := by
  constructor
  · norm_num [streamTradesRun, MAX_BACKOFF_SECONDS, min_def]
  · intro h
    norm_num at h

/-!  ## Claim C3 — strictly increasing open times and exact spans

Helper lemmas about normalization, sorting of already-sorted input,
the seeding scan on aware candles, and the deque suffix.  -/

theorem ensureTz_open_time {tz : Int} {c : OhlcvCandle} :
    (ensureTz tz c).open_time = ⟨c.open_time.epoch, some tz⟩ := by
  unfold ensureTz
  split_ifs with h
  · cases hot : c.open_time with
    | mk e z =>
      have := h.1
      rw [hot] at this
      simp at this
      simp [hot, this]
  · rfl

theorem ensureTz_close_time {tz : Int} {c : OhlcvCandle} :
    (ensureTz tz c).close_time = ⟨c.close_time.epoch, some tz⟩ := by
  unfold ensureTz
  split_ifs with h
  · cases hct : c.close_time with
    | mk e z =>
      have := h.2
      rw [hct] at this
      simp at this
      simp [hct, this]
  · rfl

theorem seedScan_aware {tz : Int} {l : List OhlcvCandle}
    (h : ∀ c ∈ l, c.open_time.tz ≠ none ∧ c.close_time.tz ≠ none) :
    seedScan tz l = (l.map (ensureTz tz), true) := by
  induction l with
  | nil => rfl
  | cons c cs ih =>
    rw [seedScan]
    have hc := h c (List.mem_cons.2 (Or.inl rfl))
    rw [if_neg (by push_neg; exact hc)]
    rw [ih (fun d hd => h d (List.mem_cons.2 (Or.inr hd)))]
    rfl

theorem sortCandles_of_sorted {l : List OhlcvCandle}
    (h : l.Pairwise (fun a b => a.open_time.epoch ≤ b.open_time.epoch)) :
    sortCandles l = l := by
  induction l with
  | nil => rfl
  | cons c cs ih =>
    rw [sortCandles, ih (List.Pairwise.of_cons h)]
    cases cs with
    | nil => rfl
    | cons d ds =>
      rw [insertByOpenTime, if_neg]
      have hcd : c.open_time.epoch ≤ d.open_time.epoch :=
        (List.pairwise_cons.1 h).1 d (List.mem_cons.2 (Or.inl rfl))
      omega

theorem takeLast_sublist (n : Nat) (l : List α) : List.Sublist (takeLast n l) l :=
  List.drop_sublist _ _

theorem bufferInv_boundedAppend {tz secs : Int} {l : List OhlcvCandle}
    {new : OhlcvCandle} {n : Nat} (h : bufferInv tz secs l)
    (hgt : ∀ c ∈ l, c.open_time.epoch < new.open_time.epoch)
    (hnew : new.open_time.tz = some tz ∧ new.close_time.tz = some tz ∧
      new.close_time.epoch - new.open_time.epoch = secs) :
    bufferInv tz secs (boundedAppend n l new) := by
  have happ : bufferInv tz secs (l ++ [new]) := by
    constructor
    · rw [List.pairwise_append]
      exact ⟨h.1, List.pairwise_singleton _ _,
        fun a ha b hb => by rw [List.mem_singleton.1 hb]; exact hgt a ha⟩
    · intro c hc
      rcases List.mem_append.1 hc with h' | h'
      · exact h.2 c h'
      · rw [List.mem_singleton.1 h']; exact hnew
  simp only [boundedAppend]
  split_ifs with hlt
  · exact ⟨List.Pairwise.sublist (List.drop_sublist _ _) happ.1,
      fun c hc => happ.2 c (List.drop_subset _ _ hc)⟩
  · exact happ

theorem bufferInv_last_le {tz secs : Int} {l : List OhlcvCandle}
    {last : OhlcvCandle} (h : bufferInv tz secs l)
    (hlast : l.getLast? = some last) :
    ∀ c ∈ l, c.open_time.epoch ≤ last.open_time.epoch := by
  intro c hc
  have hdec : l.dropLast ++ [last] = l := List.dropLast_append_getLast? last hlast
  have hp := h.1
  rw [← hdec] at hp hc
  rw [List.pairwise_append] at hp
  rcases List.mem_append.1 hc with h' | h'
  · exact le_of_lt (hp.2.2 c h' last (List.mem_singleton.2 rfl))
  · rw [List.mem_singleton.1 h']

/-- C3 amended: the strict-increase and exact-span buffer invariant is
established by `seed` whenever the seeded candles are timezone-aware
with strictly increasing open times and spans equal to the timeframe
duration, and preserved by `update` whenever the tick's floored bucket
start is no earlier than the newest candle's open time (merging when
equal, appending when later).  It is *not* maintained for arbitrary
inputs: a tick regressing to an earlier bucket, or a seed with
duplicate open times or wrong spans, violates it (see the
counterexample). -/
theorem C3_amended :
    (∀ (tz secs : Int) (maxLen : Nat) (cs : List OhlcvCandle),
      (∀ c ∈ cs, c.open_time.tz ≠ none ∧ c.close_time.tz ≠ none) →
      cs.Pairwise (fun a b => a.open_time.epoch < b.open_time.epoch) →
      (∀ c ∈ cs, c.close_time.epoch - c.open_time.epoch = secs) →
      bufferInv tz secs (seededBuffer tz maxLen cs))
    ∧ (∀ (sym : String) (tz : Int) (maxLen : Nat) (tf : Timeframe)
        (l : List OhlcvCandle) (t : TradeTick),
      bufferInv tz tf.durationSecs l →
      (∀ last, l.getLast? = some last →
        last.open_time.epoch ≤ (floorTimestamp t.timestamp tf.durationSecs tz).epoch) →
      bufferInv tz tf.durationSecs (upsertCandle sym tz maxLen tf l t)) := by
  constructor
  · intro tz secs maxLen cs haware hsorted hspan
    have hsort_id : sortCandles cs = cs :=
      sortCandles_of_sorted (hsorted.imp le_of_lt)
    have hscan : seedScan tz (sortCandles cs) = (cs.map (ensureTz tz), true) := by
      rw [hsort_id]; exact seedScan_aware haware
    have hmap : bufferInv tz secs (cs.map (ensureTz tz)) := by
      constructor
      · rw [List.pairwise_map]
        refine hsorted.imp ?_
        intro a b hab
        rw [ensureTz_open_time, ensureTz_open_time]
        exact hab
      · intro c hc
        rcases List.mem_map.1 hc with ⟨d, hd, he⟩
        subst he
        rw [ensureTz_open_time, ensureTz_close_time]
        exact ⟨rfl, rfl, hspan d hd⟩
    unfold seededBuffer
    rw [hscan]
    exact ⟨List.Pairwise.sublist (takeLast_sublist _ _) hmap.1,
      fun c hc => hmap.2 c (List.drop_subset _ _ hc)⟩
  · intro sym tz maxLen tf l t hinv hle
    dsimp only [upsertCandle]
    split
    · next last hb =>
      have hlastmem : last ∈ l := List.mem_of_getLast?_eq_some hb
      have hlasttz := hinv.2 last hlastmem
      split_ifs with hd
      · -- merge into the newest candle
        have hfseq : last.open_time.epoch
            = (floorTimestamp t.timestamp tf.durationSecs tz).epoch := by
          unfold dtEq at hd
          rw [hlasttz.1] at hd
          simp only [floorTimestamp] at hd
          simpa using hd
        have hdec : l.dropLast ++ [last] = l := List.dropLast_append_getLast? last hb
        constructor
        · have hp := hinv.1
          rw [← hdec, List.pairwise_append] at hp
          rw [List.pairwise_append]
          exact ⟨hp.1, List.pairwise_singleton _ _,
            fun a ha b hbmem => by
              rw [List.mem_singleton.1 hbmem]
              exact hp.2.2 a ha last (List.mem_singleton.2 rfl)⟩
        · intro c hc
          rcases List.mem_append.1 hc with h' | h'
          · exact hinv.2 c (List.dropLast_subset _ h')
          · rw [List.mem_singleton.1 h']
            refine ⟨hlasttz.1, rfl, ?_⟩
            dsimp only
            omega
      · -- append a new bucket
        have hfsne : last.open_time.epoch
            ≠ (floorTimestamp t.timestamp tf.durationSecs tz).epoch := by
          intro he
          apply hd
          unfold dtEq
          rw [hlasttz.1]
          simp only [floorTimestamp]
          simpa using he
        have hlt : last.open_time.epoch
            < (floorTimestamp t.timestamp tf.durationSecs tz).epoch :=
          lt_of_le_of_ne (hle last hb) hfsne
        refine bufferInv_boundedAppend hinv ?_ ⟨rfl, rfl, by dsimp only [mkNewCandle]; omega⟩
        intro c hc
        exact lt_of_le_of_lt (bufferInv_last_le hinv hb c hc) hlt
    · next hb =>
      have hnil : l = [] := List.getLast?_eq_none_iff.1 hb
      subst hnil
      refine bufferInv_boundedAppend ⟨List.Pairwise.nil, by simp⟩ (by simp)
        ⟨rfl, rfl, by dsimp only [mkNewCandle]; omega⟩

/-- C3 counterexample: two updates whose second tick regresses to an
earlier bucket leave the 1-minute buffer with open times 600 then 0 —
the code appends (it only merges on equality), so the buffer's open
times are not strictly increasing, refuting the claim's quantification
over arbitrary tick sequences. -/
theorem C3_counterexample :
    ((applyOps (mkAggregator "BTCUSDT" [Timeframe.MINUTE_1] 500 ARGENTINA_TIMEZONE)
        [AggOp.opUpdate ⟨"BTCUSDT", 100, 1, ⟨600, some 0⟩⟩,
         AggOp.opUpdate ⟨"BTCUSDT", 101, 1, ⟨0, some 0⟩⟩]).buffers Timeframe.MINUTE_1).map
        (fun c => c.open_time.epoch) = [600, 0]
    ∧ ¬ ((applyOps (mkAggregator "BTCUSDT" [Timeframe.MINUTE_1] 500 ARGENTINA_TIMEZONE)
        [AggOp.opUpdate ⟨"BTCUSDT", 100, 1, ⟨600, some 0⟩⟩,
         AggOp.opUpdate ⟨"BTCUSDT", 101, 1, ⟨0, some 0⟩⟩]).buffers Timeframe.MINUTE_1).Pairwise
        (fun a b => a.open_time.epoch < b.open_time.epoch) := by
  have heq : ((applyOps (mkAggregator "BTCUSDT" [Timeframe.MINUTE_1] 500 ARGENTINA_TIMEZONE)
      [AggOp.opUpdate ⟨"BTCUSDT", 100, 1, ⟨600, some 0⟩⟩,
       AggOp.opUpdate ⟨"BTCUSDT", 101, 1, ⟨0, some 0⟩⟩]).buffers Timeframe.MINUTE_1).map
      (fun c => c.open_time.epoch) = [600, 0] := by decide
  refine ⟨heq, ?_⟩
  intro h
  have h2 : (((applyOps (mkAggregator "BTCUSDT" [Timeframe.MINUTE_1] 500 ARGENTINA_TIMEZONE)
      [AggOp.opUpdate ⟨"BTCUSDT", 100, 1, ⟨600, some 0⟩⟩,
       AggOp.opUpdate ⟨"BTCUSDT", 101, 1, ⟨0, some 0⟩⟩]).buffers Timeframe.MINUTE_1).map
      (fun c => c.open_time.epoch)).Pairwise (· < ·) :=
    List.pairwise_map.2 h
  rw [heq] at h2
  have h600 : (600 : Int) < 0 := (List.pairwise_cons.1 h2).1 0 (by simp)
  omega

/-- Witness for C3 amended: seeding two well-formed 1-minute candles
establishes the invariant, and an in-order tick preserves it. -/
theorem C3_amended_witness :
    bufferInv ARGENTINA_TIMEZONE 60 (seededBuffer ARGENTINA_TIMEZONE 500
      [⟨"BTCUSDT", Timeframe.MINUTE_1, ⟨0, some ARGENTINA_TIMEZONE⟩,
        ⟨60, some ARGENTINA_TIMEZONE⟩, 1, 1, 1, 1, 1⟩,
       ⟨"BTCUSDT", Timeframe.MINUTE_1, ⟨60, some ARGENTINA_TIMEZONE⟩,
        ⟨120, some ARGENTINA_TIMEZONE⟩, 2, 2, 2, 2, 2⟩])
    ∧ bufferInv ARGENTINA_TIMEZONE Timeframe.MINUTE_1.durationSecs
      (upsertCandle "BTCUSDT" ARGENTINA_TIMEZONE 500 Timeframe.MINUTE_1
        [⟨"BTCUSDT", Timeframe.MINUTE_1, ⟨0, some ARGENTINA_TIMEZONE⟩,
          ⟨60, some ARGENTINA_TIMEZONE⟩, 1, 1, 1, 1, 1⟩]
        ⟨"BTCUSDT", 3, 1, ⟨70, some ARGENTINA_TIMEZONE⟩⟩) :=
  ⟨C3_amended.1 ARGENTINA_TIMEZONE 60 500 _
      (by decide) (by decide) (by decide),
   C3_amended.2 "BTCUSDT" ARGENTINA_TIMEZONE 500 Timeframe.MINUTE_1
      [⟨"BTCUSDT", Timeframe.MINUTE_1, ⟨0, some ARGENTINA_TIMEZONE⟩,
        ⟨60, some ARGENTINA_TIMEZONE⟩, 1, 1, 1, 1, 1⟩]
      ⟨"BTCUSDT", 3, 1, ⟨70, some ARGENTINA_TIMEZONE⟩⟩
      (by unfold bufferInv; exact ⟨by decide, by decide⟩)
      (fun last h => by
        have hl : last = ⟨"BTCUSDT", Timeframe.MINUTE_1, ⟨0, some ARGENTINA_TIMEZONE⟩,
            ⟨60, some ARGENTINA_TIMEZONE⟩, 1, 1, 1, 1, 1⟩ := by
          have h' := h
          simp at h'
          exact h'.symm
        subst hl
        decide)⟩

/-!  ## Claim C2 — same-bucket aggregation

Helper lemmas: localization of an aware tick, reduction of the
aggregator-level fold to a per-buffer fold, and the behaviour of the
per-buffer fold over ticks that all floor to one bucket.  -/

theorem localizeTick_aware (a : OhlcvAggregator) (t : TradeTick) (z : Int)
    (h : t.timestamp.tz = some z) :
    a.localizeTick t = .ok { t with timestamp := ⟨t.timestamp.epoch, some a.timezone⟩ } := by
  cases t with
  | mk s p q ts =>
    cases ts with
    | mk e zz =>
      simp only at h
      subst h
      simp only [OhlcvAggregator.localizeTick]
      split_ifs with hz
      · subst hz; rfl
      · rfl

theorem updateEffect_aware (a : OhlcvAggregator) (t : TradeTick) (z : Int)
    (h : t.timestamp.tz = some z) :
    (a.updateEffect t).symbol = a.symbol
    ∧ (a.updateEffect t).timezone = a.timezone
    ∧ (a.updateEffect t).maxLen = a.maxLen
    ∧ (a.updateEffect t).timeframes = a.timeframes
    ∧ ∀ tf : Timeframe, (a.updateEffect t).buffers tf
        = if tf ∈ a.timeframes then upsertCandle a.symbol a.timezone a.maxLen tf (a.buffers tf) { t with timestamp := ⟨t.timestamp.epoch, some a.timezone⟩ } else a.buffers tf := by
  unfold OhlcvAggregator.updateEffect OhlcvAggregator.updateChecked
  rw [localizeTick_aware a t z h]
  exact ⟨rfl, rfl, rfl, rfl, fun tf => rfl⟩

theorem applyOps_update_buffer (tf : Timeframe) :
    ∀ (ts : List TradeTick) (a : OhlcvAggregator),
      tf ∈ a.timeframes → (∀ t ∈ ts, t.timestamp.tz ≠ none) →
      (applyOps a (ts.map AggOp.opUpdate)).buffers tf
        = ts.foldl (fun buf t => upsertCandle a.symbol a.timezone a.maxLen tf buf
            { t with timestamp := ⟨t.timestamp.epoch, some a.timezone⟩ }) (a.buffers tf) := by
  intro ts
  induction ts with
  | nil => intro a _ _; rfl
  | cons t ts' ih =>
    intro a htf haw
    have ht : t.timestamp.tz ≠ none := haw t (List.mem_cons.2 (Or.inl rfl))
    rcases Option.ne_none_iff_exists'.1 ht with ⟨z, hz⟩
    obtain ⟨hsym, htz, hml, htfs, hbuf⟩ := updateEffect_aware a t z hz
    show (applyOps (a.updateEffect t) (ts'.map AggOp.opUpdate)).buffers tf = _
    rw [ih (a.updateEffect t) (by rw [htfs]; exact htf)
      (fun u hu => haw u (List.mem_cons.2 (Or.inr hu)))]
    rw [hsym, htz, hml, hbuf tf, if_pos htf]
    rfl

theorem foldUpsert_same_bucket (sym : String) (tz : Int) (maxLen : Nat)
    (tf : Timeframe) (b : Int) :
    ∀ (ts : List TradeTick) (c : OhlcvCandle),
      c.open_time = ⟨b, some tz⟩ →
      (∀ t ∈ ts, t.timestamp.epoch - t.timestamp.epoch % tf.durationSecs = b) →
      ts.foldl (fun buf t => upsertCandle sym tz maxLen tf buf t) [c]
        = [ts.foldl (fun c' t =>
            { c' with
                high := max c'.high t.price
                low := min c'.low t.price
                close := t.price
                volume := c'.volume + t.quantity
                close_time := ⟨b + tf.durationSecs, some tz⟩ }) c] := by
  intro ts
  induction ts with
  | nil => intro c _ _; rfl
  | cons t ts' ih =>
    intro c hopen hfloor
    have hb : t.timestamp.epoch - t.timestamp.epoch % tf.durationSecs = b :=
      hfloor t (List.mem_cons.2 (Or.inl rfl))
    have hstep : upsertCandle sym tz maxLen tf [c] t
        = [{ c with
              high := max c.high t.price
              low := min c.low t.price
              close := t.price
              volume := c.volume + t.quantity
              close_time := ⟨b + tf.durationSecs, some tz⟩ }] := by
      dsimp only [upsertCandle]
      rw [List.getLast?_singleton]
      dsimp only
      have hfs : floorTimestamp t.timestamp tf.durationSecs tz = ⟨b, some tz⟩ := by
        unfold floorTimestamp
        rw [hb]
      rw [hfs, hopen]
      have hdt : dtEq ⟨b, some tz⟩ ⟨b, some tz⟩ = true := by
        unfold dtEq
        simp
      rw [if_pos hdt]
      simp
    show List.foldl _ (upsertCandle sym tz maxLen tf [c] t) ts' = _
    rw [hstep, ih _ (by simp [hopen]) (fun u hu => hfloor u (List.mem_cons.2 (Or.inr hu)))]
    rfl

theorem foldMerge_open (b : Int) (tz : Int) (secs : Int) :
    ∀ (ts : List TradeTick) (c : OhlcvCandle),
      (ts.foldl (fun c' t =>
        { c' with
            high := max c'.high t.price, low := min c'.low t.price,
            close := t.price, volume := c'.volume + t.quantity,
            close_time := (⟨b + secs, some tz⟩ : DateTime) }) c).«open» = c.«open» := by
  intro ts
  induction ts with
  | nil => intro c; rfl
  | cons t ts' ih => intro c; exact ih _

theorem foldMerge_open_time (b : Int) (tz : Int) (secs : Int) :
    ∀ (ts : List TradeTick) (c : OhlcvCandle),
      (ts.foldl (fun c' t =>
        { c' with
            high := max c'.high t.price, low := min c'.low t.price,
            close := t.price, volume := c'.volume + t.quantity,
            close_time := (⟨b + secs, some tz⟩ : DateTime) }) c).open_time = c.open_time := by
  intro ts
  induction ts with
  | nil => intro c; rfl
  | cons t ts' ih => intro c; exact ih _

theorem foldMerge_close_time (b : Int) (tz : Int) (secs : Int) :
    ∀ (ts : List TradeTick) (c : OhlcvCandle),
      (ts.foldl (fun c' t =>
        { c' with
            high := max c'.high t.price, low := min c'.low t.price,
            close := t.price, volume := c'.volume + t.quantity,
            close_time := (⟨b + secs, some tz⟩ : DateTime) }) c).close_time
        = (ts.map (fun _ => (⟨b + secs, some tz⟩ : DateTime))).getLastD c.close_time := by
  intro ts
  induction ts with
  | nil => intro c; rfl
  | cons t ts' ih =>
    intro c
    rw [List.map_cons, List.getLastD_cons]
    exact ih _

theorem foldMerge_close (b : Int) (tz : Int) (secs : Int) :
    ∀ (ts : List TradeTick) (c : OhlcvCandle),
      (ts.foldl (fun c' t =>
        { c' with
            high := max c'.high t.price, low := min c'.low t.price,
            close := t.price, volume := c'.volume + t.quantity,
            close_time := (⟨b + secs, some tz⟩ : DateTime) }) c).close
        = (ts.map TradeTick.price).getLastD c.close := by
  intro ts
  induction ts with
  | nil => intro c; rfl
  | cons t ts' ih =>
    intro c
    rw [List.map_cons, List.getLastD_cons]
    exact ih _

theorem foldMerge_high (b : Int) (tz : Int) (secs : Int) :
    ∀ (ts : List TradeTick) (c : OhlcvCandle),
      (ts.foldl (fun c' t =>
        { c' with
            high := max c'.high t.price, low := min c'.low t.price,
            close := t.price, volume := c'.volume + t.quantity,
            close_time := (⟨b + secs, some tz⟩ : DateTime) }) c).high
        = ts.foldl (fun q t => max q t.price) c.high := by
  intro ts
  induction ts with
  | nil => intro c; rfl
  | cons t ts' ih => intro c; exact ih _

theorem foldMerge_low (b : Int) (tz : Int) (secs : Int) :
    ∀ (ts : List TradeTick) (c : OhlcvCandle),
      (ts.foldl (fun c' t =>
        { c' with
            high := max c'.high t.price, low := min c'.low t.price,
            close := t.price, volume := c'.volume + t.quantity,
            close_time := (⟨b + secs, some tz⟩ : DateTime) }) c).low
        = ts.foldl (fun q t => min q t.price) c.low := by
  intro ts
  induction ts with
  | nil => intro c; rfl
  | cons t ts' ih => intro c; exact ih _

theorem foldMerge_volume (b : Int) (tz : Int) (secs : Int) :
    ∀ (ts : List TradeTick) (c : OhlcvCandle),
      (ts.foldl (fun c' t =>
        { c' with
            high := max c'.high t.price, low := min c'.low t.price,
            close := t.price, volume := c'.volume + t.quantity,
            close_time := (⟨b + secs, some tz⟩ : DateTime) }) c).volume
        = c.volume + (ts.map TradeTick.quantity).sum := by
  intro ts
  induction ts with
  | nil => intro c; simp
  | cons t ts' ih =>
    intro c
    rw [List.map_cons, List.sum_cons, List.foldl_cons, ih]
    dsimp only
    ring

theorem le_foldl_max (l : List ℚ) :
    ∀ x : ℚ, x ≤ l.foldl max x ∧ ∀ y ∈ l, y ≤ l.foldl max x := by
  induction l with
  | nil => intro x; exact ⟨le_rfl, by simp⟩
  | cons a l ih =>
    intro x
    refine ⟨le_trans (le_max_left _ _) (ih (max x a)).1, ?_⟩
    intro y hy
    rcases List.mem_cons.1 hy with h | h
    · rw [h]
      exact le_trans (le_max_right _ _) (ih (max x a)).1
    · exact (ih (max x a)).2 y h

theorem foldl_max_mem (l : List ℚ) :
    ∀ x : ℚ, l.foldl max x = x ∨ l.foldl max x ∈ l := by
  induction l with
  | nil => intro x; exact Or.inl rfl
  | cons a l ih =>
    intro x
    rcases ih (max x a) with h | h
    · rcases max_choice x a with h' | h'
      · exact Or.inl (by rw [List.foldl_cons, h, h'])
      · exact Or.inr (by rw [List.foldl_cons, h, h']; simp)
    · exact Or.inr (by simp [h])

theorem foldl_min_le (l : List ℚ) :
    ∀ x : ℚ, l.foldl min x ≤ x ∧ ∀ y ∈ l, l.foldl min x ≤ y := by
  induction l with
  | nil => intro x; exact ⟨le_rfl, by simp⟩
  | cons a l ih =>
    intro x
    refine ⟨le_trans (ih (min x a)).1 (min_le_left _ _), ?_⟩
    intro y hy
    rcases List.mem_cons.1 hy with h | h
    · rw [h]
      exact le_trans (ih (min x a)).1 (min_le_right _ _)
    · exact (ih (min x a)).2 y h

theorem foldl_min_mem (l : List ℚ) :
    ∀ x : ℚ, l.foldl min x = x ∨ l.foldl min x ∈ l := by
  induction l with
  | nil => intro x; exact Or.inl rfl
  | cons a l ih =>
    intro x
    rcases ih (min x a) with h | h
    · rcases min_choice x a with h' | h'
      · exact Or.inl (by rw [List.foldl_cons, h, h'])
      · exact Or.inr (by rw [List.foldl_cons, h, h']; simp)
    · exact Or.inr (by simp [h])

theorem getLastD_map_const {α β : Type} :
    ∀ (l : List α) (k : β), (l.map (fun _ => k)).getLastD k = k := by
  intro l k
  induction l with
  | nil => rfl
  | cons a l ih =>
    rw [List.map_cons, List.getLastD_cons]
    exact ih

/-- C2: feeding a non-empty sequence of aware ticks that all floor to
the bucket start `b` for timeframe `tf` into `update` on an initially
empty buffer yields exactly one candle for `tf`: its open is the first
tick's price, its close the last tick's price, its high and low the
maximum and minimum price seen, its volume the sum of the quantities,
and its bucket timestamps are the shared bucket.  Moreover a tick whose
floored bucket start differs from the newest candle's open time makes
`_upsert_candle` append a brand-new candle with
open = high = low = close = price and volume = quantity instead of
merging. -/
theorem C2_same_bucket (a : OhlcvAggregator) (tf : Timeframe) (b : Int)
    (t0 : TradeTick) (rest : List TradeTick)
    (htf : tf ∈ a.timeframes) (hbuf : a.buffers tf = []) (hmax : 1 ≤ a.maxLen)
    (haware : ∀ t ∈ t0 :: rest, t.timestamp.tz ≠ none)
    (hsame : ∀ t ∈ t0 :: rest,
      t.timestamp.epoch - t.timestamp.epoch % tf.durationSecs = b) :
    (∃ C, (applyOps a ((t0 :: rest).map AggOp.opUpdate)).buffers tf = [C]
      ∧ C.«open» = t0.price
      ∧ C.close = (rest.map TradeTick.price).getLastD t0.price
      ∧ (∀ t ∈ t0 :: rest, t.price ≤ C.high)
      ∧ C.high ∈ (t0 :: rest).map TradeTick.price
      ∧ (∀ t ∈ t0 :: rest, C.low ≤ t.price)
      ∧ C.low ∈ (t0 :: rest).map TradeTick.price
      ∧ C.volume = ((t0 :: rest).map TradeTick.quantity).sum
      ∧ C.open_time = ⟨b, some a.timezone⟩
      ∧ C.close_time = ⟨b + tf.durationSecs, some a.timezone⟩)
    ∧ (∀ (buf : List OhlcvCandle) (last : OhlcvCandle) (t : TradeTick),
        buf.getLast? = some last →
        dtEq last.open_time (floorTimestamp t.timestamp tf.durationSecs a.timezone) = false →
        ∃ newC, upsertCandle a.symbol a.timezone a.maxLen tf buf t
            = boundedAppend a.maxLen buf newC
          ∧ newC.«open» = t.price ∧ newC.high = t.price ∧ newC.low = t.price
          ∧ newC.close = t.price ∧ newC.volume = t.quantity
          ∧ newC.open_time = floorTimestamp t.timestamp tf.durationSecs a.timezone) := by
  constructor
  · -- the same-bucket aggregation
    have hfold := applyOps_update_buffer tf (t0 :: rest) a htf haware
    rw [hbuf, List.foldl_cons] at hfold
    have hfs0 : floorTimestamp
        ({ t0 with timestamp := ⟨t0.timestamp.epoch, some a.timezone⟩ } : TradeTick).timestamp
        tf.durationSecs a.timezone = ⟨b, some a.timezone⟩ := by
      unfold floorTimestamp
      dsimp only
      rw [hsame t0 (List.mem_cons.2 (Or.inl rfl))]
    have h0 : upsertCandle a.symbol a.timezone a.maxLen tf []
        { t0 with timestamp := ⟨t0.timestamp.epoch, some a.timezone⟩ }
        = [mkNewCandle a.symbol tf ⟨b, some a.timezone⟩
            ⟨b + tf.durationSecs, some a.timezone⟩
            { t0 with timestamp := ⟨t0.timestamp.epoch, some a.timezone⟩ }] := by
      dsimp only [upsertCandle]
      rw [hfs0]
      simp only [List.getLast?_nil, boundedAppend, List.nil_append, List.length_singleton]
      rw [if_neg (by omega)]
    rw [h0] at hfold
    have hcompose : rest.foldl (fun buf t => upsertCandle a.symbol a.timezone a.maxLen tf buf
          { t with timestamp := ⟨t.timestamp.epoch, some a.timezone⟩ })
        [mkNewCandle a.symbol tf ⟨b, some a.timezone⟩
          ⟨b + tf.durationSecs, some a.timezone⟩
          { t0 with timestamp := ⟨t0.timestamp.epoch, some a.timezone⟩ }]
        = (rest.map (fun t => ({ t with timestamp := ⟨t.timestamp.epoch, some a.timezone⟩ } : TradeTick))).foldl
            (fun buf t => upsertCandle a.symbol a.timezone a.maxLen tf buf t)
            [mkNewCandle a.symbol tf ⟨b, some a.timezone⟩
              ⟨b + tf.durationSecs, some a.timezone⟩
              { t0 with timestamp := ⟨t0.timestamp.epoch, some a.timezone⟩ }] := by
      rw [List.foldl_map]
    rw [hcompose] at hfold
    rw [foldUpsert_same_bucket a.symbol a.timezone a.maxLen tf b _ _ rfl
      (by
        intro t' ht'
        rcases List.mem_map.1 ht' with ⟨u, hu, he⟩
        subst he
        exact hsame u (List.mem_cons.2 (Or.inr hu)))] at hfold
    refine ⟨_, hfold, ?_, ?_, ?_, ?_, ?_, ?_, ?_, ?_, ?_⟩
    · rw [foldMerge_open b a.timezone tf.durationSecs]
      rfl
    · rw [foldMerge_close b a.timezone tf.durationSecs]
      have hm : (rest.map (fun t => ({ t with timestamp := ⟨t.timestamp.epoch, some a.timezone⟩ } : TradeTick))).map TradeTick.price = rest.map TradeTick.price := by
        rw [List.map_map]
        rfl
      rw [hm]
      rfl
    · intro t ht
      rw [foldMerge_high b a.timezone tf.durationSecs]
      have hm : (rest.map (fun t => ({ t with timestamp := ⟨t.timestamp.epoch, some a.timezone⟩ } : TradeTick))).foldl (fun q t => max q t.price)
          (mkNewCandle a.symbol tf ⟨b, some a.timezone⟩ ⟨b + tf.durationSecs, some a.timezone⟩ { t0 with timestamp := ⟨t0.timestamp.epoch, some a.timezone⟩ }).high
          = (rest.map TradeTick.price).foldl max t0.price := by
        rw [List.foldl_map, ← List.foldl_map TradeTick.price max]
        rfl
      rw [hm]
      rcases List.mem_cons.1 ht with h | h
      · rw [h]
        exact (le_foldl_max _ _).1
      · exact (le_foldl_max _ _).2 t.price (List.mem_map.2 ⟨t, h, rfl⟩)
    · rw [foldMerge_high b a.timezone tf.durationSecs]
      have hm : (rest.map (fun t => ({ t with timestamp := ⟨t.timestamp.epoch, some a.timezone⟩ } : TradeTick))).foldl (fun q t => max q t.price)
          (mkNewCandle a.symbol tf ⟨b, some a.timezone⟩ ⟨b + tf.durationSecs, some a.timezone⟩ { t0 with timestamp := ⟨t0.timestamp.epoch, some a.timezone⟩ }).high
          = (rest.map TradeTick.price).foldl max t0.price := by
        rw [List.foldl_map, ← List.foldl_map TradeTick.price max]
        rfl
      rw [hm, List.map_cons]
      rcases foldl_max_mem (rest.map TradeTick.price) t0.price with h | h
      · rw [h]
        exact List.mem_cons.2 (Or.inl rfl)
      · exact List.mem_cons.2 (Or.inr h)
    · intro t ht
      rw [foldMerge_low b a.timezone tf.durationSecs]
      have hm : (rest.map (fun t => ({ t with timestamp := ⟨t.timestamp.epoch, some a.timezone⟩ } : TradeTick))).foldl (fun q t => min q t.price)
          (mkNewCandle a.symbol tf ⟨b, some a.timezone⟩ ⟨b + tf.durationSecs, some a.timezone⟩ { t0 with timestamp := ⟨t0.timestamp.epoch, some a.timezone⟩ }).low
          = (rest.map TradeTick.price).foldl min t0.price := by
        rw [List.foldl_map, ← List.foldl_map TradeTick.price min]
        rfl
      rw [hm]
      rcases List.mem_cons.1 ht with h | h
      · rw [h]
        exact (foldl_min_le _ _).1
      · exact (foldl_min_le _ _).2 t.price (List.mem_map.2 ⟨t, h, rfl⟩)
    · rw [foldMerge_low b a.timezone tf.durationSecs]
      have hm : (rest.map (fun t => ({ t with timestamp := ⟨t.timestamp.epoch, some a.timezone⟩ } : TradeTick))).foldl (fun q t => min q t.price)
          (mkNewCandle a.symbol tf ⟨b, some a.timezone⟩ ⟨b + tf.durationSecs, some a.timezone⟩ { t0 with timestamp := ⟨t0.timestamp.epoch, some a.timezone⟩ }).low
          = (rest.map TradeTick.price).foldl min t0.price := by
        rw [List.foldl_map, ← List.foldl_map TradeTick.price min]
        rfl
      rw [hm, List.map_cons]
      rcases foldl_min_mem (rest.map TradeTick.price) t0.price with h | h
      · rw [h]
        exact List.mem_cons.2 (Or.inl rfl)
      · exact List.mem_cons.2 (Or.inr h)
    · rw [foldMerge_volume b a.timezone tf.durationSecs]
      have hm : (rest.map (fun t => ({ t with timestamp := ⟨t.timestamp.epoch, some a.timezone⟩ } : TradeTick))).map TradeTick.quantity = rest.map TradeTick.quantity := by
        rw [List.map_map]
        rfl
      rw [hm, List.map_cons, List.sum_cons]
      rfl
    · rw [foldMerge_open_time b a.timezone tf.durationSecs]
      rfl
    · rw [foldMerge_close_time b a.timezone tf.durationSecs]
      have hm : (rest.map (fun t => ({ t with timestamp := ⟨t.timestamp.epoch, some a.timezone⟩ } : TradeTick))).map (fun _ => (⟨b + tf.durationSecs, some a.timezone⟩ : DateTime))
          = rest.map (fun _ => (⟨b + tf.durationSecs, some a.timezone⟩ : DateTime)) := by
        rw [List.map_map]
        rfl
      rw [hm]
      exact getLastD_map_const rest _
  · -- the different-bucket append
    intro buf last t hlast hne
    refine ⟨mkNewCandle a.symbol tf (floorTimestamp t.timestamp tf.durationSecs a.timezone)
      ⟨(floorTimestamp t.timestamp tf.durationSecs a.timezone).epoch + tf.durationSecs,
        some a.timezone⟩ t, ?_, rfl, rfl, rfl, rfl, rfl, rfl⟩
    dsimp only [upsertCandle]
    rw [hlast]
    dsimp only
    rw [if_neg (by rw [hne]; exact Bool.false_ne_true)]
    rfl

/-- Witness for C2 at the spec's end-to-end scenario prefix: two ticks
at prices 100 and 102 inside the same 1-minute bucket. -/
theorem C2_same_bucket_witness :
    (∃ C, (applyOps (mkAggregator "BTCUSDT" [Timeframe.MINUTE_1] 500 ARGENTINA_TIMEZONE)
        (([⟨"BTCUSDT", 100, 1/4, ⟨600, some 0⟩⟩,
           ⟨"BTCUSDT", 102, 1/10, ⟨630, some 0⟩⟩] : List TradeTick).map
          AggOp.opUpdate)).buffers Timeframe.MINUTE_1 = [C]
      ∧ C.«open» = (⟨"BTCUSDT", 100, 1/4, ⟨600, some 0⟩⟩ : TradeTick).price
      ∧ C.close = (([⟨"BTCUSDT", 102, 1/10, ⟨630, some 0⟩⟩] : List TradeTick).map
          TradeTick.price).getLastD (⟨"BTCUSDT", 100, 1/4, ⟨600, some 0⟩⟩ : TradeTick).price
      ∧ (∀ t ∈ ([⟨"BTCUSDT", 100, 1/4, ⟨600, some 0⟩⟩,
           ⟨"BTCUSDT", 102, 1/10, ⟨630, some 0⟩⟩] : List TradeTick), t.price ≤ C.high)
      ∧ C.high ∈ (([⟨"BTCUSDT", 100, 1/4, ⟨600, some 0⟩⟩,
           ⟨"BTCUSDT", 102, 1/10, ⟨630, some 0⟩⟩] : List TradeTick).map TradeTick.price)
      ∧ (∀ t ∈ ([⟨"BTCUSDT", 100, 1/4, ⟨600, some 0⟩⟩,
           ⟨"BTCUSDT", 102, 1/10, ⟨630, some 0⟩⟩] : List TradeTick), C.low ≤ t.price)
      ∧ C.low ∈ (([⟨"BTCUSDT", 100, 1/4, ⟨600, some 0⟩⟩,
           ⟨"BTCUSDT", 102, 1/10, ⟨630, some 0⟩⟩] : List TradeTick).map TradeTick.price)
      ∧ C.volume = (([⟨"BTCUSDT", 100, 1/4, ⟨600, some 0⟩⟩,
           ⟨"BTCUSDT", 102, 1/10, ⟨630, some 0⟩⟩] : List TradeTick).map
          TradeTick.quantity).sum
      ∧ C.open_time = ⟨600, some (mkAggregator "BTCUSDT" [Timeframe.MINUTE_1] 500
          ARGENTINA_TIMEZONE).timezone⟩
      ∧ C.close_time = ⟨600 + Timeframe.MINUTE_1.durationSecs,
          some (mkAggregator "BTCUSDT" [Timeframe.MINUTE_1] 500 ARGENTINA_TIMEZONE).timezone⟩)
    ∧ (∀ (buf : List OhlcvCandle) (last : OhlcvCandle) (t : TradeTick),
        buf.getLast? = some last →
        dtEq last.open_time (floorTimestamp t.timestamp Timeframe.MINUTE_1.durationSecs
          (mkAggregator "BTCUSDT" [Timeframe.MINUTE_1] 500 ARGENTINA_TIMEZONE).timezone)
          = false →
        ∃ newC, upsertCandle (mkAggregator "BTCUSDT" [Timeframe.MINUTE_1] 500
              ARGENTINA_TIMEZONE).symbol
            (mkAggregator "BTCUSDT" [Timeframe.MINUTE_1] 500 ARGENTINA_TIMEZONE).timezone
            (mkAggregator "BTCUSDT" [Timeframe.MINUTE_1] 500 ARGENTINA_TIMEZONE).maxLen
            Timeframe.MINUTE_1 buf t
            = boundedAppend (mkAggregator "BTCUSDT" [Timeframe.MINUTE_1] 500
                ARGENTINA_TIMEZONE).maxLen buf newC
          ∧ newC.«open» = t.price ∧ newC.high = t.price ∧ newC.low = t.price
          ∧ newC.close = t.price ∧ newC.volume = t.quantity
          ∧ newC.open_time = floorTimestamp t.timestamp Timeframe.MINUTE_1.durationSecs
              (mkAggregator "BTCUSDT" [Timeframe.MINUTE_1] 500 ARGENTINA_TIMEZONE).timezone) :=
  C2_same_bucket (mkAggregator "BTCUSDT" [Timeframe.MINUTE_1] 500 ARGENTINA_TIMEZONE)
    Timeframe.MINUTE_1 600
    ⟨"BTCUSDT", 100, 1/4, ⟨600, some 0⟩⟩
    [⟨"BTCUSDT", 102, 1/10, ⟨630, some 0⟩⟩]
    (by decide) rfl (by decide) (by decide) (by decide)

/-!  ## Claim C7 — persistence round-trip

Helper lemmas: the interval labels are injective, a snapshot payload
looks up to exactly the serialized cache entry, serialization followed
by deserialization is the identity up to the timeframe re-tag, the
deque suffix keeps the newest candle, and re-seeding an
already-normalized sorted buffer reproduces it.  -/

theorem interval_inj : ∀ t1 t2 : Timeframe, t1.interval = t2.interval → t1 = t2 := by
  intro t1 t2 h
  cases t1 <;> cases t2 <;> first | rfl | exact absurd h (by decide)

theorem lookup_map_interval (f : Timeframe → List CandlePayload) :
    ∀ (tfs : List Timeframe) (tf : Timeframe), tf ∈ tfs →
      (tfs.map (fun t => (t.interval, f t))).lookup tf.interval = some (f tf) := by
  intro tfs
  induction tfs with
  | nil => intro tf h; simp at h
  | cons t rest ih =>
    intro tf h
    rw [List.map_cons, List.lookup_cons]
    by_cases hq : tf.interval = t.interval
    · have : tf = t := interval_inj _ _ hq
      subst this
      simp
    · have hbeq : (tf.interval == t.interval) = false := by
        simpa using hq
      rw [hbeq]
      rcases List.mem_cons.1 h with h' | h'
      · exact absurd (by rw [h'] : tf.interval = t.interval) hq
      · exact ih tf h'

theorem lookup_map_interval_not_mem (f : Timeframe → List CandlePayload) :
    ∀ (tfs : List Timeframe) (tf : Timeframe), tf ∉ tfs →
      (tfs.map (fun t => (t.interval, f t))).lookup tf.interval = none := by
  intro tfs
  induction tfs with
  | nil => intro tf _; rfl
  | cons t rest ih =>
    intro tf h
    rw [List.map_cons, List.lookup_cons]
    have hne : tf ≠ t := fun e => h (List.mem_cons.2 (Or.inl e))
    have hq : (tf.interval == t.interval) = false := by
      simp only [beq_eq_false_iff_ne, ne_eq]
      intro he
      exact hne (interval_inj _ _ he)
    rw [hq]
    exact ih tf (fun hm => h (List.mem_cons.2 (Or.inr hm)))

theorem deserializeAll_serialize :
    ∀ (l : List OhlcvCandle) (tf : Timeframe),
      deserializeAll (l.map serializeCandle) tf
        = .ok (l.map (fun c => { c with timeframe := tf })) := by
  intro l
  induction l with
  | nil => intro tf; rfl
  | cons c cs ih =>
    intro tf
    rw [List.map_cons]
    show deserializeAll (serializeCandle c :: cs.map serializeCandle) tf = _
    unfold deserializeAll
    rw [ih tf]
    rfl

theorem ensureTz_of_tz {tz : Int} {c : OhlcvCandle}
    (h1 : c.open_time.tz = some tz) (h2 : c.close_time.tz = some tz) :
    ensureTz tz c = c := by
  unfold ensureTz
  rw [if_pos ⟨h1, h2⟩]

theorem ensureTz_fields {tz : Int} (c : OhlcvCandle) :
    (ensureTz tz c).symbol = c.symbol
    ∧ (ensureTz tz c).«open» = c.«open» ∧ (ensureTz tz c).high = c.high
    ∧ (ensureTz tz c).low = c.low ∧ (ensureTz tz c).close = c.close
    ∧ (ensureTz tz c).volume = c.volume := by
  unfold ensureTz
  split_ifs <;> exact ⟨rfl, rfl, rfl, rfl, rfl, rfl⟩

theorem takeLast_length_le (n : Nat) (l : List α) : (takeLast n l).length ≤ n := by
  unfold takeLast
  rw [List.length_drop]
  omega

theorem takeLast_of_le {n : Nat} {l : List α} (h : l.length ≤ n) : takeLast n l = l := by
  unfold takeLast
  have : l.length - n = 0 := by omega
  rw [this, List.drop_zero]

theorem takeLast_ne_nil {n : Nat} {l : List α} (h1 : 1 ≤ n) (h2 : l ≠ []) :
    takeLast n l ≠ [] := by
  intro he
  have hlen : (takeLast n l).length = 0 := by rw [he]; rfl
  unfold takeLast at hlen
  rw [List.length_drop] at hlen
  have : 0 < l.length := List.length_pos.2 h2
  omega

theorem getLast?_drop : ∀ (l : List α) (k : Nat), k < l.length →
    (l.drop k).getLast? = l.getLast? := by
  intro l
  induction l with
  | nil => intro k h; simp at h
  | cons a as ih =>
    intro k h
    cases k with
    | zero => rfl
    | succ k' =>
      have hk' : k' < as.length := by
        simp at h
        omega
      have hdrop : (a :: as).drop (k' + 1) = as.drop k' := rfl
      rw [hdrop, ih k' hk']
      cases as with
      | nil => simp at hk'
      | cons b bs => rw [List.getLast?_cons_cons]

theorem getLast?_takeLast {n : Nat} {l : List α} (h1 : 1 ≤ n) :
    (takeLast n l).getLast? = l.getLast? := by
  cases hl : l with
  | nil => simp [takeLast]
  | cons a as =>
    rw [← hl]
    unfold takeLast
    apply getLast?_drop
    have : 0 < l.length := by rw [hl]; simp
    omega

theorem insertByOpenTime_pairwise {c : OhlcvCandle} {l : List OhlcvCandle}
    (h : l.Pairwise (fun a b => a.open_time.epoch ≤ b.open_time.epoch)) :
    (insertByOpenTime c l).Pairwise (fun a b => a.open_time.epoch ≤ b.open_time.epoch) := by
  induction l with
  | nil => exact List.pairwise_singleton _ _
  | cons d ds ih =>
    rw [insertByOpenTime]
    rcases List.pairwise_cons.1 h with ⟨hd, hds⟩
    split_ifs with hlt
    · rw [List.pairwise_cons]
      refine ⟨?_, ih hds⟩
      intro x hx
      rcases mem_insertByOpenTime hx with h' | h'
      · rw [h']; omega
      · exact hd x h'
    · rw [List.pairwise_cons]
      refine ⟨?_, h⟩
      intro x hx
      rcases List.mem_cons.1 hx with h' | h'
      · rw [h']; omega
      · exact le_trans (by omega) (hd x h')

theorem sortCandles_pairwise (l : List OhlcvCandle) :
    (sortCandles l).Pairwise (fun a b => a.open_time.epoch ≤ b.open_time.epoch) := by
  induction l with
  | nil => exact List.Pairwise.nil
  | cons c cs ih =>
    rw [sortCandles]
    exact insertByOpenTime_pairwise ih

theorem length_insertByOpenTime (c : OhlcvCandle) :
    ∀ l : List OhlcvCandle, (insertByOpenTime c l).length = l.length + 1 := by
  intro l
  induction l with
  | nil => rfl
  | cons d ds ih =>
    rw [insertByOpenTime]
    split_ifs with hlt
    · rw [List.length_cons, ih, List.length_cons]
    · rfl

theorem sortCandles_ne_nil {l : List OhlcvCandle} (h : l ≠ []) :
    sortCandles l ≠ [] := by
  cases l with
  | nil => exact absurd rfl h
  | cons c cs =>
    rw [sortCandles]
    intro he
    have := length_insertByOpenTime c (sortCandles cs)
    rw [he] at this
    simp at this

theorem seedChecked_aware (a : OhlcvAggregator) (tf : Timeframe) (cs : List OhlcvCandle)
    (htf : tf ∈ a.timeframes)
    (haware : ∀ c ∈ cs, c.open_time.tz ≠ none ∧ c.close_time.tz ≠ none) :
    a.seedChecked tf cs = .ok (a.seedEffect tf cs) := by
  unfold OhlcvAggregator.seedChecked
  rw [if_pos htf]
  have hscan : seedScan a.timezone (sortCandles cs)
      = ((sortCandles cs).map (ensureTz a.timezone), true) :=
    seedScan_aware (fun c hc => haware c (mem_sortCandles hc))
  rw [hscan]
  rfl

theorem seedEffect_buffers_self (a : OhlcvAggregator) (tf : Timeframe)
    (cs : List OhlcvCandle) (htf : tf ∈ a.timeframes) :
    (a.seedEffect tf cs).buffers tf = seededBuffer a.timezone a.maxLen cs := by
  unfold OhlcvAggregator.seedEffect
  rw [if_pos htf]
  simp

theorem seedEffect_buffers_other (a : OhlcvAggregator) (tf tf' : Timeframe)
    (cs : List OhlcvCandle) (h : tf' ≠ tf) :
    (a.seedEffect tf cs).buffers tf' = a.buffers tf' := by
  unfold OhlcvAggregator.seedEffect
  split_ifs with hmem
  · simp [h]
  · rfl

theorem seedEffect_config (a : OhlcvAggregator) (tf : Timeframe) (cs : List OhlcvCandle) :
    (a.seedEffect tf cs).symbol = a.symbol
    ∧ (a.seedEffect tf cs).timezone = a.timezone
    ∧ (a.seedEffect tf cs).maxLen = a.maxLen
    ∧ (a.seedEffect tf cs).timeframes = a.timeframes := by
  unfold OhlcvAggregator.seedEffect
  split_ifs <;> exact ⟨rfl, rfl, rfl, rfl⟩

theorem loadState_single (payload : List (String × List CandlePayload)) (tf : Timeframe)
    (B : List OhlcvCandle) (hB : B ≠ [])
    (hawB : ∀ c ∈ B, c.open_time.tz ≠ none ∧ c.close_time.tz ≠ none)
    (hentries : ∀ tf' : Timeframe, loadEntries payload tf'
        = if tf' = tf then B.map serializeCandle else []) :
    ∀ (tfs : List Timeframe) (agg : OhlcvAggregator), tf ∈ agg.timeframes →
      ∃ agg', loadState tfs agg payload = .ok agg'
        ∧ agg'.symbol = agg.symbol ∧ agg'.timezone = agg.timezone
        ∧ agg'.maxLen = agg.maxLen ∧ agg'.timeframes = agg.timeframes
        ∧ (∀ tf', tf' ≠ tf → agg'.buffers tf' = agg.buffers tf')
        ∧ (tf ∈ tfs → agg'.buffers tf
            = seededBuffer agg.timezone agg.maxLen
                (B.map (fun c => { c with timeframe := tf })))
        ∧ (tf ∉ tfs → agg'.buffers tf = agg.buffers tf) := by
  intro tfs
  induction tfs with
  | nil =>
    intro agg htfin
    exact ⟨agg, rfl, rfl, rfl, rfl, rfl, fun _ _ => rfl,
      fun h => absurd h (List.not_mem_nil tf), fun _ => rfl⟩
  | cons tf0 rest ih =>
    intro agg htfin
    by_cases h0 : tf0 = tf
    · subst h0
      have hent := hentries tf0
      rw [if_pos rfl] at hent
      have hBne : B.map serializeCandle ≠ [] := by simpa using hB
      have hseed : agg.seedChecked tf0 (B.map (fun c => { c with timeframe := tf0 }))
          = .ok (agg.seedEffect tf0 (B.map (fun c => { c with timeframe := tf0 }))) :=
        seedChecked_aware _ _ _ htfin (by
          intro c hc
          rcases List.mem_map.1 hc with ⟨c0, hc0, he⟩
          subst he
          exact hawB c0 hc0)
      have hstep : loadState (tf0 :: rest) agg payload
          = loadState rest (agg.seedEffect tf0
              (B.map (fun c => { c with timeframe := tf0 }))) payload := by
        rw [loadState]
        simp only [hent, if_neg hBne, deserializeAll_serialize, hseed]
      obtain ⟨hs, ht, hm, htf4⟩ :=
        seedEffect_config agg tf0 (B.map (fun c => { c with timeframe := tf0 }))
      obtain ⟨agg', hload, hs', ht', hm', htf', hother, hin, hnotin⟩ :=
        ih (agg.seedEffect tf0 (B.map (fun c => { c with timeframe := tf0 })))
          (by rw [htf4]; exact htfin)
      refine ⟨agg', by rw [hstep]; exact hload,
        by rw [hs', hs], by rw [ht', ht], by rw [hm', hm], by rw [htf', htf4],
        ?_, ?_, ?_⟩
      · intro tf' h'
        rw [hother tf' h', seedEffect_buffers_other agg tf0 tf' _ h']
      · intro _
        by_cases hrest : tf0 ∈ rest
        · rw [hin hrest, ht, hm]
        · rw [hnotin hrest, seedEffect_buffers_self agg tf0 _ htfin]
      · intro h
        exact absurd (List.mem_cons.2 (Or.inl rfl)) h
    · have hent := hentries tf0
      rw [if_neg h0] at hent
      have hstep : loadState (tf0 :: rest) agg payload = loadState rest agg payload := by
        rw [loadState]
        simp only [hent, if_pos]
      obtain ⟨agg', hload, hs', ht', hm', htf', hother, hin, hnotin⟩ := ih agg htfin
      refine ⟨agg', by rw [hstep]; exact hload, hs', ht', hm', htf', hother, ?_, ?_⟩
      · intro hmem
        rcases List.mem_cons.1 hmem with h' | h'
        · exact absurd h'.symm h0
        · exact hin h'
      · intro hnot
        exact hnotin (fun hm2 => hnot (List.mem_cons.2 (Or.inr hm2)))

/-- C7: seeding a non-empty list of timezone-aware candles into a
manager with persistence, then constructing a second manager with the
same symbol, timeframes and path (i.e. from the file the first one
wrote), yields a `get_latest` equal to the last seeded candle — the
one with the greatest open time, the final element after the stable
sort the seed performs — in open, high, low, close, volume and open
time as an instant. -/
theorem C7_persistence_roundtrip (sym : String) (tfs : List Timeframe) (hl : Nat)
    (tz : Int) (tf : Timeframe) (cs : List OhlcvCandle)
    (htf : tf ∈ tfs) (hne : cs ≠ []) (hhl : 1 ≤ hl)
    (haware : ∀ c ∈ cs, c.open_time.tz ≠ none ∧ c.close_time.tz ≠ none) :
    mkManager sym tfs hl tz FileState.missing = .ok (freshManager sym tfs hl tz)
    ∧ ∃ m1 m2 c d,
        seedManager (freshManager sym tfs hl tz) tf cs = .ok m1
        ∧ mkManager sym tfs hl tz (.parsed (snapshotPayload m1)) = .ok m2
        ∧ (sortCandles cs).getLast? = some c
        ∧ getLatest m2 tf = some d
        ∧ d.«open» = c.«open» ∧ d.high = c.high ∧ d.low = c.low
        ∧ d.close = c.close ∧ d.volume = c.volume
        ∧ d.open_time.epoch = c.open_time.epoch := by
  refine ⟨rfl, ?_⟩
  -- notation for the states involved
  set A0 := mkAggregator sym tfs hl tz with hA0
  have hA0tz : A0.timezone = tz := rfl
  have hA0ml : A0.maxLen = hl := rfl
  have hA0tfs : A0.timeframes = tfs := rfl
  have hA0buf : ∀ tf' : Timeframe, A0.buffers tf' = [] := fun _ => rfl
  set X := (sortCandles cs).map (ensureTz tz) with hX
  set B := takeLast hl X with hB
  -- the first manager's seed succeeds
  have hseedck : A0.seedChecked tf cs = .ok (A0.seedEffect tf cs) :=
    seedChecked_aware A0 tf cs htf haware
  set A1 := A0.seedEffect tf cs with hA1
  have hA1tf : A1.buffers tf = B := by
    rw [hA1, seedEffect_buffers_self A0 tf cs htf]
    unfold seededBuffer
    rw [hA0tz, seedScan_aware (fun c hc => haware c (mem_sortCandles hc))]
    rfl
  have hA1o : ∀ tf' : Timeframe, tf' ≠ tf → A1.buffers tf' = [] := by
    intro tf' h'
    rw [hA1, seedEffect_buffers_other A0 tf tf' cs h', hA0buf]
  set m1 : MarketDataManager :=
    { freshManager sym tfs hl tz with
        agg := A1, cache := syncCacheFun tfs hl A1 (freshManager sym tfs hl tz).cache }
    with hm1def
  have hm1 : seedManager (freshManager sym tfs hl tz) tf cs = .ok m1 := by
    unfold seedManager
    rw [show (freshManager sym tfs hl tz).agg = A0 from rfl, hseedck]
    rfl
  -- the first manager's cache
  have hBlen : B.length ≤ hl := takeLast_length_le hl X
  have hc1tf : m1.cache tf = B := by
    rw [hm1def]
    show syncCacheFun tfs hl A1 (freshManager sym tfs hl tz).cache tf = B
    unfold syncCacheFun
    rw [if_pos htf, hA1tf, if_neg (by omega)]
  have hc1o : ∀ tf' : Timeframe, tf' ≠ tf → m1.cache tf' = [] := by
    intro tf' h'
    rw [hm1def]
    show syncCacheFun tfs hl A1 (freshManager sym tfs hl tz).cache tf' = []
    unfold syncCacheFun
    by_cases hmem : tf' ∈ tfs
    · rw [if_pos hmem, hA1o tf' h']
      simp
    · rw [if_neg hmem]
      rfl
  -- the payload the first manager persists
  have hpay : snapshotPayload m1
      = tfs.map (fun t => (t.interval, (m1.cache t).map serializeCandle)) := rfl
  have hentries : ∀ tf' : Timeframe, loadEntries (snapshotPayload m1) tf'
      = if tf' = tf then B.map serializeCandle else [] := by
    intro tf'
    unfold loadEntries
    rw [hpay]
    by_cases hmem : tf' ∈ tfs
    · rw [lookup_map_interval (fun t => (m1.cache t).map serializeCandle) tfs tf' hmem]
      by_cases heq : tf' = tf
      · subst heq
        rw [if_pos rfl, hc1tf]
        rfl
      · rw [if_neg heq, hc1o tf' heq]
        rfl
    · rw [lookup_map_interval_not_mem (fun t => (m1.cache t).map serializeCandle) tfs tf' hmem]
      rw [if_neg (fun heq => hmem (by rw [heq]; exact htf))]
      rfl
  -- awareness and non-emptiness of the cached buffer
  have hawB2 : ∀ c ∈ B, c.open_time.tz = some tz ∧ c.close_time.tz = some tz := by
    intro c hc
    have hcX : c ∈ X := List.drop_subset _ _ hc
    rcases List.mem_map.1 hcX with ⟨d, _, he⟩
    subst he
    rw [ensureTz_open_time, ensureTz_close_time]
    exact ⟨rfl, rfl⟩
  have hawB : ∀ c ∈ B, c.open_time.tz ≠ none ∧ c.close_time.tz ≠ none := by
    intro c hc
    rcases hawB2 c hc with ⟨h1, h2⟩
    rw [h1, h2]
    exact ⟨Option.some_ne_none tz, Option.some_ne_none tz⟩
  have hXne : X ≠ [] := by
    rw [hX]
    simpa using sortCandles_ne_nil hne
  have hBne : B ≠ [] := takeLast_ne_nil hhl hXne
  -- build the second manager
  obtain ⟨agg2, hload, hs2, ht2, hm2l, htf2, hother2, hin2, _⟩ :=
    loadState_single (snapshotPayload m1) tf B hBne hawB hentries tfs A0 htf
  set D := B.map (fun c => { c with timeframe := tf }) with hD
  have hagg2tf : agg2.buffers tf = seededBuffer tz hl D := by
    rw [hin2 htf, hA0tz, hA0ml]
  set m2 : MarketDataManager :=
    { freshManager sym tfs hl tz with
        agg := agg2, cache := syncCacheFun tfs hl agg2 (freshManager sym tfs hl tz).cache }
    with hm2def
  have hm2 : mkManager sym tfs hl tz (.parsed (snapshotPayload m1)) = .ok m2 := by
    show (match loadState tfs A0 (snapshotPayload m1) with
      | Except.error e => (Except.error e : Except PyError MarketDataManager)
      | Except.ok agg' => Except.ok { freshManager sym tfs hl tz with
          agg := agg', cache := syncCacheFun tfs hl agg'
            (freshManager sym tfs hl tz).cache }) = Except.ok m2
    rw [hload]
  -- the reseeded buffer reproduces the cached one
  have hDaw : ∀ c ∈ D, c.open_time.tz = some tz ∧ c.close_time.tz = some tz := by
    intro c hc
    rcases List.mem_map.1 hc with ⟨c0, hc0, he⟩
    subst he
    exact hawB2 c0 hc0
  have hXsorted : X.Pairwise (fun a b => a.open_time.epoch ≤ b.open_time.epoch) := by
    rw [hX, List.pairwise_map]
    refine (sortCandles_pairwise cs).imp ?_
    intro a b hab
    rw [ensureTz_open_time, ensureTz_open_time]
    exact hab
  have hBsorted : B.Pairwise (fun a b => a.open_time.epoch ≤ b.open_time.epoch) :=
    List.Pairwise.sublist (takeLast_sublist hl X) hXsorted
  have hDsorted : D.Pairwise (fun a b => a.open_time.epoch ≤ b.open_time.epoch) := by
    rw [hD, List.pairwise_map]
    exact hBsorted
  have hDlen : D.length ≤ hl := by
    rw [hD, List.length_map]
    exact hBlen
  have hseeded : seededBuffer tz hl D = D := by
    unfold seededBuffer
    rw [sortCandles_of_sorted hDsorted]
    rw [seedScan_aware (fun c hc => by
      rcases hDaw c hc with ⟨h1, h2⟩
      rw [h1, h2]
      exact ⟨Option.some_ne_none tz, Option.some_ne_none tz⟩)]
    show takeLast hl (D.map (ensureTz tz)) = D
    rw [List.map_congr_left (fun c hc => ensureTz_of_tz (hDaw c hc).1 (hDaw c hc).2)]
    rw [show List.map (fun c : OhlcvCandle => c) D = D from List.map_id' D]
    exact takeLast_of_le hDlen
  -- the second manager's latest candle
  have hc2tf : m2.cache tf = D := by
    rw [hm2def]
    show syncCacheFun tfs hl agg2 (freshManager sym tfs hl tz).cache tf = D
    unfold syncCacheFun
    rw [if_pos htf, hagg2tf, hseeded, if_neg (by omega)]
  have hlatest : getLatest m2 tf = D.getLast? := by
    unfold getLatest
    rw [show m2.timeframes = tfs from rfl, if_pos htf, hc2tf]
  -- identify the last sorted candle
  cases hc0 : (sortCandles cs).getLast? with
  | none => exact absurd (List.getLast?_eq_none_iff.1 hc0) (sortCandles_ne_nil hne)
  | some c0 =>
    have hDlast : D.getLast? = some { ensureTz tz c0 with timeframe := tf } := by
      rw [hD, List.getLast?_map, getLast?_takeLast hhl, hX, List.getLast?_map, hc0]
      rfl
    refine ⟨m1, m2, c0, { ensureTz tz c0 with timeframe := tf },
      hm1, hm2, rfl, by rw [hlatest, hDlast], ?_, ?_, ?_, ?_, ?_, ?_⟩
    · show (ensureTz tz c0).«open» = c0.«open»
      exact (ensureTz_fields c0).2.1
    · show (ensureTz tz c0).high = c0.high
      exact (ensureTz_fields c0).2.2.1
    · show (ensureTz tz c0).low = c0.low
      exact (ensureTz_fields c0).2.2.2.1
    · show (ensureTz tz c0).close = c0.close
      exact (ensureTz_fields c0).2.2.2.2.1
    · show (ensureTz tz c0).volume = c0.volume
      exact (ensureTz_fields c0).2.2.2.2.2
    · show (ensureTz tz c0).open_time.epoch = c0.open_time.epoch
      rw [ensureTz_open_time]

/-- Witness for C7: one seeded 1-minute candle round-trips through the
persisted payload into a second manager. -/
theorem C7_persistence_roundtrip_witness :
    mkManager "BTCUSDT" [Timeframe.MINUTE_1] 5 ARGENTINA_TIMEZONE FileState.missing
      = .ok (freshManager "BTCUSDT" [Timeframe.MINUTE_1] 5 ARGENTINA_TIMEZONE)
    ∧ ∃ m1 m2 c d,
        seedManager (freshManager "BTCUSDT" [Timeframe.MINUTE_1] 5 ARGENTINA_TIMEZONE)
          Timeframe.MINUTE_1
          [⟨"BTCUSDT", Timeframe.MINUTE_1, ⟨900, some ARGENTINA_TIMEZONE⟩,
            ⟨960, some ARGENTINA_TIMEZONE⟩, 100, 105, 95, 102, 5/4⟩] = .ok m1
        ∧ mkManager "BTCUSDT" [Timeframe.MINUTE_1] 5 ARGENTINA_TIMEZONE
            (.parsed (snapshotPayload m1)) = .ok m2
        ∧ (sortCandles [⟨"BTCUSDT", Timeframe.MINUTE_1, ⟨900, some ARGENTINA_TIMEZONE⟩,
            ⟨960, some ARGENTINA_TIMEZONE⟩, 100, 105, 95, 102, 5/4⟩]).getLast? = some c
        ∧ getLatest m2 Timeframe.MINUTE_1 = some d
        ∧ d.«open» = c.«open» ∧ d.high = c.high ∧ d.low = c.low
        ∧ d.close = c.close ∧ d.volume = c.volume
        ∧ d.open_time.epoch = c.open_time.epoch :=
  C7_persistence_roundtrip "BTCUSDT" [Timeframe.MINUTE_1] 5 ARGENTINA_TIMEZONE
    Timeframe.MINUTE_1
    [⟨"BTCUSDT", Timeframe.MINUTE_1, ⟨900, some ARGENTINA_TIMEZONE⟩,
      ⟨960, some ARGENTINA_TIMEZONE⟩, 100, 105, 95, 102, 5/4⟩]
    (by decide) (by decide) (by decide) (by decide)
